import Mathlib

/-!
Shallow embedding of the PR reviewer-assignment service (Go) in Lean 4.

The data model and operations below are transcribed from the repository
sources: the domain types and methods from `internal/domain`, the
assignment strategy from `internal/service/assignment/strategy.go`, the
bulk-deactivation workflow from the user service, the single-reviewer
reassignment and merge from `internal/service/pullrequest/service.go`,
the repository layer from the SQL repositories, and the transaction
coordinator from `internal/db/context_manager.go`.

Randomness is embedded by explicit parameters: the shuffle performed by
`rng.Shuffle` inside `SelectReviewers` is represented by a `shuffled`
argument constrained (at theorem sites) to be a permutation of the
candidate list, and each `rng.Intn` draw is represented by an arbitrary
natural number reduced modulo the candidate count, so every reachable
outcome of the random source is covered by quantification.
-/

namespace PRService

/-- Domain error values from `internal/domain` (errors.go). -/
inductive DomainError where
  | ErrNotFound
  | ErrTeamExists
  | ErrPRExists
  | ErrPRMerged
  | ErrNotAssigned
  | ErrNoCandidate
  | ErrInvalidArgument
  deriving DecidableEq, Repr

/-- Go `domain.User` (timestamps omitted; they carry no logic). -/
structure User where
  UserID : String
  Username : String
  TeamName : String
  IsActive : Bool
  deriving DecidableEq, Repr

/-- Go `domain.Team`. -/
structure Team where
  TeamName : String
  Members : List User
  deriving DecidableEq, Repr

/-- Go `domain.PRStatus` with its two constants. -/
inductive PRStatus where
  | Open
  | Merged
  deriving DecidableEq, Repr

/-- Go `domain.PullRequest`; `CreatedAt`/`MergedAt` modelled as abstract
natural-number instants. -/
structure PullRequest where
  PullRequestID : String
  PullRequestName : String
  AuthorID : String
  Status : PRStatus
  AssignedReviewers : List String
  CreatedAt : Nat
  MergedAt : Option Nat
  deriving DecidableEq, Repr

/-- Go `domain.Reassignment`. -/
structure Reassignment where
  PullRequestID : String
  OldUserID : String
  NewUserID : String
  deriving DecidableEq, Repr

/-- Go `PullRequest.IsMerged`. -/
def PullRequest.IsMerged (pr : PullRequest) : Bool :=
  pr.Status == PRStatus.Merged

/-- Go `PullRequest.CanReassign`. -/
def PullRequest.CanReassign (pr : PullRequest) : Bool :=
  !pr.IsMerged

/-- Go `PullRequest.Merge` (the current instant is an explicit argument in
place of `time.Now()`). -/
def PullRequest.Merge (pr : PullRequest) (now : Nat) : PullRequest :=
  if pr.IsMerged then pr
  else { pr with Status := PRStatus.Merged, MergedAt := some now }

/-- Go `PullRequest.IsReviewerAssigned`. -/
def PullRequest.IsReviewerAssigned (pr : PullRequest) (userID : String) : Bool :=
  pr.AssignedReviewers.contains userID

/-- The replacement loop inside `PullRequest.ReplaceReviewer`: substitute
`newID` at the first occurrence of `oldID`, or report that no occurrence
exists. -/
def replaceFirst : List String → String → String → Option (List String)
  | [], _, _ => none
  | r :: rest, oldID, newID =>
    if r = oldID then some (newID :: rest)
    else (replaceFirst rest oldID newID).map (r :: ·)

/-- Go `PullRequest.ReplaceReviewer`. -/
def PullRequest.ReplaceReviewer (pr : PullRequest) (oldUserID newUserID : String) :
    Except DomainError PullRequest :=
  if pr.IsMerged then .error .ErrPRMerged
  else if !pr.IsReviewerAssigned oldUserID then .error .ErrNotAssigned
  else
    match replaceFirst pr.AssignedReviewers oldUserID newUserID with
    | some rs => .ok { pr with AssignedReviewers := rs }
    | none => .error .ErrNotAssigned

/-- Go `Team.GetActiveMembers`. -/
def Team.GetActiveMembers (t : Team) : List User :=
  t.Members.filter (fun m => m.IsActive)

/-- Go `Team.GetActiveMembersExcluding`. -/
def Team.GetActiveMembersExcluding (t : Team) (userID : String) : List User :=
  t.Members.filter (fun m => m.IsActive && m.UserID != userID)

/-- Go `Team.HasMember`. -/
def Team.HasMember (t : Team) (userID : String) : Bool :=
  t.Members.any (fun m => m.UserID == userID)

/-- Go `Strategy.SelectReviewers`: the candidates are the active members
excluding the author; `shuffled` stands for the result of `rng.Shuffle`
over the candidate slice (a permutation of it); the first
`min 2 |candidates|` shuffled entries are returned. -/
def SelectReviewers (team : Team) (authorID : String) (shuffled : List User) :
    List String :=
  let candidates := team.GetActiveMembersExcluding authorID
  if candidates.length = 0 then []
  else
    let maxReviewers := if candidates.length < 2 then candidates.length else 2
    (shuffled.take maxReviewers).map (fun u => u.UserID)

/-- Go `Strategy.SelectReplacementReviewer`: filter the active members down
to those not excluded; empty → `ErrNoCandidate`; otherwise pick the
member at index `rand % |filtered|` (`rng.Intn` embedded as an arbitrary
draw reduced modulo the candidate count). -/
def SelectReplacementReviewer (team : Team) (excludeUserIDs : List String)
    (rand : Nat) : Except DomainError String :=
  let candidates := team.GetActiveMembers
  let filtered := candidates.filter (fun c => !excludeUserIDs.contains c.UserID)
  match filtered with
  | [] => .error .ErrNoCandidate
  | c :: rest => .ok ((c :: rest).get ⟨rand % (c :: rest).length,
      Nat.mod_lt _ (Nat.succ_pos _)⟩).UserID

/-- The persistent store: the `users` table and the `pull_requests`
table joined with its `pr_reviewers` rows (each pull request carries its
ordered reviewer list, as `GetPR` reconstructs it). -/
structure DB where
  users : List User
  prs : List PullRequest
  deriving DecidableEq, Repr

/-- Repository `userRepository.GetUser`: `SELECT ... WHERE user_id = $1`;
`ErrNotFound` when no row matches. -/
def GetUser (db : DB) (userID : String) : Except DomainError User :=
  match db.users.find? (fun u => u.UserID == userID) with
  | some u => .ok u
  | none => .error .ErrNotFound

/-- Repository `userRepository.GetTeamMembers`: `SELECT ... WHERE team_name = $1`
(an empty result is an empty list, not an error). -/
def GetTeamMembers (db : DB) (teamName : String) : List User :=
  db.users.filter (fun u => u.TeamName == teamName)

/-- Repository `prRepository.GetPR`: fetch the pull request row with its ordered
reviewer list; `ErrNotFound` when absent. -/
def GetPR (db : DB) (prID : String) : Except DomainError PullRequest :=
  match db.prs.find? (fun p => p.PullRequestID == prID) with
  | some p => .ok p
  | none => .error .ErrNotFound

/-- Repository `prRepository.UpdatePR`: `UPDATE pull_requests SET name, author,
status, merged_at WHERE id` — the reviewer join rows are untouched;
`ErrNotFound` when no row is affected. -/
def UpdatePR (db : DB) (pr : PullRequest) : Except DomainError DB :=
  if db.prs.any (fun p => p.PullRequestID == pr.PullRequestID) then
    .ok { db with prs := db.prs.map (fun p =>
      if p.PullRequestID == pr.PullRequestID then
        { p with PullRequestName := pr.PullRequestName,
                 AuthorID := pr.AuthorID,
                 Status := pr.Status,
                 MergedAt := pr.MergedAt }
      else p) }
  else .error .ErrNotFound

/-- Repository `prRepository.RemoveReviewer`: `DELETE FROM pr_reviewers WHERE
pull_request_id = $1 AND user_id = $2`; `ErrNotFound` when no row is
affected. -/
def RemoveReviewer (db : DB) (prID userID : String) : Except DomainError DB :=
  if db.prs.any (fun p => p.PullRequestID == prID && p.AssignedReviewers.contains userID) then
    .ok { db with prs := db.prs.map (fun p =>
      if p.PullRequestID == prID then
        { p with AssignedReviewers := p.AssignedReviewers.filter (fun r => r != userID) }
      else p) }
  else .error .ErrNotFound

/-- Repository `prRepository.AddReviewer`: `INSERT ... ON CONFLICT DO NOTHING` — a
no-op when the reviewer is already present; fails when the pull request
row does not exist (foreign-key reference). -/
def AddReviewer (db : DB) (prID userID : String) : Except DomainError DB :=
  if db.prs.any (fun p => p.PullRequestID == prID) then
    .ok { db with prs := db.prs.map (fun p =>
      if p.PullRequestID == prID then
        (if p.AssignedReviewers.contains userID then p
         else { p with AssignedReviewers := p.AssignedReviewers ++ [userID] })
      else p) }
  else .error .ErrNotFound

/-- Modelled from the spec: the repository operation
`GetOpenPRIDsByReviewer`, whose SQL implementation is absent from the
sources (only its interface declaration and test fakes appear) — "fetch
the set of *open* pull request ids where a user is an assigned
reviewer". -/
def GetOpenPRIDsByReviewer (db : DB) (userID : String) : List String :=
  (db.prs.filter (fun p => !p.IsMerged && p.AssignedReviewers.contains userID)).map
    (fun p => p.PullRequestID)

/-- Modelled from the spec: the repository operation `DeactivateUsers`,
whose SQL implementation is absent from the sources (only its interface
declaration and test fakes appear) — "bulk-set `is_active = false` for a
set of user ids scoped to a team, failing the whole batch with
`NotFound` if any id isn't a member of that team". -/
def DeactivateUsers (db : DB) (teamName : String) (userIDs : List String) :
    Except DomainError DB :=
  if userIDs.all (fun id => db.users.any (fun u => u.UserID == id && u.TeamName == teamName)) then
    .ok { db with users := db.users.map (fun u =>
      if userIDs.contains u.UserID && u.TeamName == teamName then
        { u with IsActive := false }
      else u) }
  else .error .ErrNotFound

/-- Go `strings.TrimSpace`: drop leading and trailing whitespace.  Written
structurally on the character list so that the kernel can evaluate it. -/
def trimSpace (s : String) : String :=
  ⟨((s.data.dropWhile fun c => c.isWhitespace).reverse.dropWhile
      fun c => c.isWhitespace).reverse⟩

/-- Operations a `ContextManager` issues to the database engine. -/
inductive TxOp where
  | BeginTx
  | CommitTx
  | RollbackTx
  deriving DecidableEq, Repr

/-- Coordinator `ContextManager.begin` (context_manager.go): when the incoming
context already carries a `pgx.Tx` it is returned unchanged and no
`Begin` is issued; otherwise a transaction is started and put into the
context.  Result: whether the returned context carries a transaction,
and the engine operations issued. -/
def ContextManager.beginOps (ctxHasTx : Bool) : Bool × List TxOp :=
  if ctxHasTx then (true, [])
  else (true, [TxOp.BeginTx])

/-- Coordinator `ContextManager.Do` (context_manager.go) at the level of engine
operations: `begin`, run the callback, then — in the deferred handler —
`rollback` the context's transaction when the callback failed, else
`commit` it.  `commit`/`rollback` act whenever the context carries a
transaction, which after `begin` is always the case.  `ctxHasTx` says
whether the *incoming* context already carried an open transaction;
`bodyFails` whether the callback returns an error. -/
def ContextManager.doOps (ctxHasTx : Bool) (bodyFails : Bool) : List TxOp :=
  let (txCtxHasTx, ops) := ContextManager.beginOps ctxHasTx
  if bodyFails then ops ++ (if txCtxHasTx then [TxOp.RollbackTx] else [])
  else ops ++ (if txCtxHasTx then [TxOp.CommitTx] else [])

/-- Coordinator `ContextManager.Do` as invoked by the services (outermost call, no
transaction in the incoming context), at the level of the store: the
callback runs against a transactional view; on success that view is
committed, on failure it is discarded and the store is left as it was. -/
def doTx {α : Type} (db : DB) (body : DB → Except DomainError (α × DB)) :
    Except DomainError α × DB :=
  match body db with
  | .error e => (.error e, db)
  | .ok (a, db') => (.ok a, db')

/-- Service `pullrequest.Service.MergePR`: trim and validate the id, fetch the
pull request, apply the idempotent domain `Merge`, persist via
`UpdatePR`. -/
def MergePR (db : DB) (now : Nat) (prID0 : String) :
    Except DomainError PullRequest × DB :=
  let prID := trimSpace prID0
  if prID = "" then (.error .ErrInvalidArgument, db)
  else match GetPR db prID with
  | .error e => (.error e, db)
  | .ok pr =>
    let merged := pr.Merge now
    match UpdatePR db merged with
    | .error e => (.error e, db)
    | .ok db' => (.ok merged, db')

/-- Service `pullrequest.Service.ReassignReviewer`: validate, fetch the pull
request, check it is open and the old reviewer is assigned, look up the
old reviewer's team roster, select a replacement excluding the current
reviewers and the author, then remove the old and add the new reviewer
inside one transaction, and finally apply the substitution to the
in-memory pull request.  `rand` embeds the single `rng.Intn` draw. -/
def ReassignReviewer (db : DB) (rand : Nat) (prID0 oldUserID0 : String) :
    Except DomainError (PullRequest × String) × DB :=
  let prID := trimSpace prID0
  let oldUserID := trimSpace oldUserID0
  if prID = "" ∨ oldUserID = "" then (.error .ErrInvalidArgument, db)
  else match GetPR db prID with
  | .error e => (.error e, db)
  | .ok pr =>
    if !pr.CanReassign then (.error .ErrPRMerged, db)
    else if !pr.IsReviewerAssigned oldUserID then (.error .ErrNotAssigned, db)
    else match GetUser db oldUserID with
    | .error e => (.error e, db)
    | .ok oldUser =>
      let team : Team := ⟨oldUser.TeamName, GetTeamMembers db oldUser.TeamName⟩
      let excludeIDs := pr.AssignedReviewers ++ [pr.AuthorID]
      match SelectReplacementReviewer team excludeIDs rand with
      | .error e => (.error e, db)
      | .ok newUserID =>
        let step := doTx db (fun txDb =>
          match RemoveReviewer txDb prID oldUserID with
          | .error e => .error e
          | .ok db1 =>
            match AddReviewer db1 prID newUserID with
            | .error e => .error e
            | .ok db2 => .ok ((), db2))
        match step.1 with
        | .error e => (.error e, step.2)
        | .ok _ =>
          match pr.ReplaceReviewer oldUserID newUserID with
          | .error e => (.error e, step.2)
          | .ok pr' => (.ok (pr', newUserID), step.2)

/-- One iteration of the input-normalization loop of
`user.Service.BulkDeactivateTeamMembers`: trim the id, reject a blank
with `ErrInvalidArgument`, skip an id already seen, append a new one. -/
def normalizeStep (acc : List String) (raw : String) :
    Except DomainError (List String) :=
  if trimSpace raw = "" then .error DomainError.ErrInvalidArgument
  else if acc.contains (trimSpace raw) then .ok acc
  else .ok (acc ++ [trimSpace raw])

/-- Input normalization loop of `user.Service.BulkDeactivateTeamMembers`:
trim each id, reject blanks with `ErrInvalidArgument`, and keep the first
occurrence of each id in request order. -/
def normalizeIDs (userIDs : List String) : Except DomainError (List String) :=
  userIDs.foldlM normalizeStep []

/-- One iteration of the target-resolution loop of
`BulkDeactivateTeamMembers`: the id must belong to a roster member
(`ErrNotFound` otherwise); an already-inactive member is dropped, an
active one becomes a target. -/
def resolveStep (members : List User) (acc : List User) (id : String) :
    Except DomainError (List User) :=
  match members.find? (fun m => m.UserID == id) with
  | none => .error DomainError.ErrNotFound
  | some m => .ok (if m.IsActive then acc ++ [m] else acc)

/-- Target-resolution loop of `BulkDeactivateTeamMembers`: each requested
id must belong to a roster member (`ErrNotFound` otherwise); already
inactive members are dropped, active ones become targets in request
order. -/
def resolveTargets (members : List User) (normalized : List String) :
    Except DomainError (List User) :=
  normalized.foldlM (resolveStep members) []

/-- Marks every roster member whose id was requested as inactive — used
both for the future roster handed to replacement selection and for the
team snapshot returned on success. -/
def markInactive (normalized : List String) (members : List User) : List User :=
  members.map (fun m =>
    if normalized.contains m.UserID then { m with IsActive := false } else m)

/-- Transaction-body state of the bulk workflow: the transactional view
of the store, the number of random draws made so far, and the
accumulated reassignment records. -/
structure TxSt where
  db : DB
  rk : Nat
  reassignments : List Reassignment

/-- Inner per-pull-request step of the bulk transaction: re-fetch the
pull request; skip it silently when merged; otherwise select a
replacement against the future roster excluding current reviewers and
the author, remove the old reviewer, add the new one, mirror the
substitution on the in-memory copy, and append one reassignment
record. -/
def processPR (randFn : Nat → Nat) (futureTeam : Team) (targetID : String)
    (st : TxSt) (prID : String) : Except DomainError TxSt :=
  match GetPR st.db prID with
  | .error e => .error e
  | .ok pr =>
    if pr.IsMerged then .ok st
    else
      let exclude := pr.AssignedReviewers ++ [pr.AuthorID]
      match SelectReplacementReviewer futureTeam exclude (randFn st.rk) with
      | .error e => .error e
      | .ok newUserID =>
        match RemoveReviewer st.db prID targetID with
        | .error e => .error e
        | .ok db1 =>
          match AddReviewer db1 prID newUserID with
          | .error e => .error e
          | .ok db2 =>
            match pr.ReplaceReviewer targetID newUserID with
            | .error e => .error e
            | .ok _ =>
              .ok { db := db2, rk := st.rk + 1,
                    reassignments := st.reassignments ++
                      [⟨prID, targetID, newUserID⟩] }

/-- Per-target step of the bulk transaction: fetch the open pull request
ids the target currently reviews, then process each in turn. -/
def processTarget (randFn : Nat → Nat) (futureTeam : Team) (st : TxSt)
    (target : User) : Except DomainError TxSt :=
  (GetOpenPRIDsByReviewer st.db target.UserID).foldlM
    (processPR randFn futureTeam target.UserID) st

/-- The transaction callback of `BulkDeactivateTeamMembers`: persist the
deactivation of all active targets in one batch, then reassign every
open review of every target in turn. -/
def bulkTxBody (randFn : Nat → Nat) (teamName : String)
    (targetIDs : List String) (targets : List User) (futureTeam : Team)
    (txDb : DB) : Except DomainError (List Reassignment × DB) :=
  match DeactivateUsers txDb teamName targetIDs with
  | .error e => .error e
  | .ok db0 =>
    match targets.foldlM (processTarget randFn futureTeam) ⟨db0, 0, []⟩ with
    | .error e => .error e
    | .ok st => .ok (st.reassignments, st.db)

/-- Service `user.Service.BulkDeactivateTeamMembers`: validate and normalize the
input, fetch the roster, resolve the targets, build the future roster
with every requested id marked inactive, then — inside one transaction —
persist the deactivations and reassign every open review of every
target; on success return the marked team snapshot, the deactivated ids
and the reassignment records.  `randFn` embeds the successive `rng.Intn`
draws. -/
def BulkDeactivateTeamMembers (randFn : Nat → Nat) (db : DB)
    (teamName0 : String) (userIDs : List String) :
    Except DomainError (Team × List String × List Reassignment) × DB :=
  if trimSpace teamName0 = "" ∨ userIDs = [] then
    (.error .ErrInvalidArgument, db)
  else match normalizeIDs userIDs with
  | .error e => (.error e, db)
  | .ok normalized =>
    if GetTeamMembers db (trimSpace teamName0) = [] then
      (.error .ErrNotFound, db)
    else match resolveTargets (GetTeamMembers db (trimSpace teamName0)) normalized with
    | .error e => (.error e, db)
    | .ok targets =>
      if targets = [] then
        (.ok (⟨trimSpace teamName0, GetTeamMembers db (trimSpace teamName0)⟩, [], []), db)
      else
        let step := doTx db (bulkTxBody randFn (trimSpace teamName0)
          (targets.map (fun u => u.UserID)) targets
          ⟨trimSpace teamName0,
            markInactive normalized (GetTeamMembers db (trimSpace teamName0))⟩)
        match step.1 with
        | .error e => (.error e, step.2)
        | .ok reassignments =>
          (.ok (⟨trimSpace teamName0,
              markInactive normalized (GetTeamMembers db (trimSpace teamName0))⟩,
            targets.map (fun u => u.UserID), reassignments), step.2)

/-! ## Lemmas about the assignment strategy -/

/-- Membership in the filtered candidate list of
`SelectReplacementReviewer`. -/
lemma mem_replacement_candidates_iff (team : Team) (ex : List String) (u : User) :
    u ∈ team.GetActiveMembers.filter (fun c => !ex.contains c.UserID) ↔
      u ∈ team.Members ∧ u.IsActive = true ∧ u.UserID ∉ ex := by
  simp only [Team.GetActiveMembers, List.mem_filter]
  simp
  tauto

lemma selectReplacementReviewer_def (team : Team) (ex : List String)
    (rand : Nat) :
    SelectReplacementReviewer team ex rand =
      match team.GetActiveMembers.filter (fun c => !ex.contains c.UserID) with
      | [] => .error .ErrNoCandidate
      | c :: rest => .ok ((c :: rest).get ⟨rand % (c :: rest).length,
          Nat.mod_lt _ (Nat.succ_pos _)⟩).UserID := rfl

lemma selectReplacementReviewer_error_iff (team : Team) (ex : List String)
    (rand : Nat) (e : DomainError) :
    SelectReplacementReviewer team ex rand = .error e ↔
      team.GetActiveMembers.filter (fun c => !ex.contains c.UserID) = [] ∧
        e = .ErrNoCandidate := by
  rw [selectReplacementReviewer_def]
  cases hf : team.GetActiveMembers.filter (fun c => !ex.contains c.UserID) with
  | nil => simp [eq_comm]
  | cons c rest => simp

lemma selectReplacementReviewer_ok (team : Team) (ex : List String)
    (rand : Nat) (x : String)
    (h : SelectReplacementReviewer team ex rand = .ok x) :
    ∃ u, u ∈ team.GetActiveMembers.filter (fun c => !ex.contains c.UserID) ∧
      u.UserID = x := by
  rw [selectReplacementReviewer_def] at h
  cases hf : team.GetActiveMembers.filter (fun c => !ex.contains c.UserID) with
  | nil => rw [hf] at h; exact absurd h (by simp)
  | cons c rest =>
    rw [hf] at h
    simp only [Except.ok.injEq] at h
    refine ⟨(c :: rest).get ⟨rand % (c :: rest).length,
      Nat.mod_lt _ (Nat.succ_pos _)⟩, List.get_mem _ _ _, h⟩

lemma mem_getActiveMembers_iff (team : Team) (u : User) :
    u ∈ team.GetActiveMembers ↔ u ∈ team.Members ∧ u.IsActive = true := by
  simp [Team.GetActiveMembers, List.mem_filter]

/-- C3: `SelectReplacementReviewer` fails with `NoCandidate` exactly when
the team has no active member outside the exclusion set; otherwise it
returns the id of an active member of the team that is not in the
exclusion set. -/
theorem C3_selectReplacementReviewer_spec (team : Team) (ex : List String)
    (rand : Nat) :
    (SelectReplacementReviewer team ex rand = .error .ErrNoCandidate ↔
      ∀ u ∈ team.Members, u.IsActive = true → u.UserID ∈ ex) ∧
    (∀ x, SelectReplacementReviewer team ex rand = .ok x →
      x ∉ ex ∧ ∃ u ∈ team.Members, u.IsActive = true ∧ u.UserID = x) := by
  constructor
  · rw [selectReplacementReviewer_error_iff]
    constructor
    · rintro ⟨hf, -⟩ u hu hact
      by_contra hnotin
      have : u ∈ team.GetActiveMembers.filter (fun c => !ex.contains c.UserID) :=
        (mem_replacement_candidates_iff team ex u).mpr ⟨hu, hact, hnotin⟩
      rw [hf] at this
      exact absurd this (List.not_mem_nil u)
    · intro h
      refine ⟨List.filter_eq_nil_iff.mpr ?_, rfl⟩
      intro u hu
      obtain ⟨hmem, hact⟩ := (mem_getActiveMembers_iff team u).mp hu
      have hex := h u hmem hact
      simp [hex]
  · intro x hx
    obtain ⟨u, hu, hux⟩ := selectReplacementReviewer_ok team ex rand x hx
    obtain ⟨hmem, hact, hnotin⟩ := (mem_replacement_candidates_iff team ex u).mp hu
    exact ⟨hux ▸ hnotin, u, hmem, hact, hux⟩

lemma mem_getActiveMembersExcluding_iff (team : Team) (authorID : String)
    (u : User) :
    u ∈ team.GetActiveMembersExcluding authorID ↔
      u ∈ team.Members ∧ u.IsActive = true ∧ u.UserID ≠ authorID := by
  simp only [Team.GetActiveMembersExcluding, List.mem_filter]
  simp [and_assoc]

/-- C8: for every team snapshot, author id, and outcome of the shuffle,
`SelectReviewers` returns exactly `min 2 |active members other than the
author|` distinct ids, each the id of an active team member different
from the author (and in particular the empty list when no such member
exists). -/
theorem C8_selectReviewers_spec (team : Team) (authorID : String)
    (shuffled : List User)
    (hperm : shuffled.Perm (team.GetActiveMembersExcluding authorID))
    (hnodup : (team.Members.map User.UserID).Nodup) :
    (SelectReviewers team authorID shuffled).length =
      min 2 (team.GetActiveMembersExcluding authorID).length ∧
    (SelectReviewers team authorID shuffled).Nodup ∧
    ∀ id ∈ SelectReviewers team authorID shuffled,
      id ≠ authorID ∧ ∃ u ∈ team.Members, u.IsActive = true ∧ u.UserID = id := by
  have hlen := hperm.length_eq
  by_cases h0 : (team.GetActiveMembersExcluding authorID).length = 0
  · simp [SelectReviewers, h0]
  · have hres : SelectReviewers team authorID shuffled =
        (shuffled.take (if (team.GetActiveMembersExcluding authorID).length < 2
          then (team.GetActiveMembersExcluding authorID).length else 2)).map
          (fun u => u.UserID) := by
      simp [SelectReviewers, h0]
    have hsub : List.Sublist (team.GetActiveMembersExcluding authorID)
        team.Members := by
      simp only [Team.GetActiveMembersExcluding]
      exact List.filter_sublist team.Members
    have hndshuffled : (shuffled.map User.UserID).Nodup := by
      refine ((hperm.map User.UserID).nodup_iff).mpr ?_
      exact hnodup.sublist (hsub.map User.UserID)
    refine ⟨?_, ?_, ?_⟩
    · rw [hres]
      simp only [List.length_map, List.length_take, hlen]
      split <;> omega
    · rw [hres, List.map_take]
      exact hndshuffled.sublist (List.take_sublist _ _)
    · intro id hid
      rw [hres] at hid
      obtain ⟨u, hu, huid⟩ := List.mem_map.mp hid
      have hu' : u ∈ shuffled := List.mem_of_mem_take hu
      have hcand := (hperm.mem_iff).mp hu'
      obtain ⟨hmem, hact, hne⟩ :=
        (mem_getActiveMembersExcluding_iff team authorID u).mp hcand
      exact ⟨huid ▸ hne, u, hmem, hact, huid⟩

/-! ## The transaction coordinator's nesting behavior -/

/-- C4 (refuting evidence): entered with a context that already carries
an open transaction and a callback that succeeds, `Do` issues no `Begin`
— it reuses the outer transaction — but its deferred completion handler
still issues a `Commit` on that outer transaction (and a `Rollback` when
the callback fails); the outermost behavior is shown for contrast.  The
nested invocation is therefore not inert. -/
theorem C4_nested_do_commits_outer_transaction :
    ContextManager.doOps true false = [TxOp.CommitTx] ∧
    ContextManager.doOps true true = [TxOp.RollbackTx] ∧
    ContextManager.doOps false false = [TxOp.BeginTx, TxOp.CommitTx] ∧
    ContextManager.doOps false true = [TxOp.BeginTx, TxOp.RollbackTx] := by
  refine ⟨rfl, rfl, rfl, rfl⟩

/-! ## Frame lemmas for `ReplaceReviewer` -/

lemma replaceFirst_spec (oldID newID : String) :
    ∀ (l l' : List String), replaceFirst l oldID newID = some l' →
      ∃ i, i < l.length ∧ l[i]? = some oldID ∧
        (∀ k, k < i → l[k]? ≠ some oldID) ∧ l' = l.set i newID := by
  intro l
  induction l with
  | nil => intro l' h; simp [replaceFirst] at h
  | cons r rest ih =>
    intro l' h
    by_cases hr : r = oldID
    · refine ⟨0, by simp, by simp [hr], by omega, ?_⟩
      simp [replaceFirst, hr] at h
      simp [← h]
    · simp only [replaceFirst, if_neg hr, Option.map_eq_some'] at h
      obtain ⟨a, ha, rfl⟩ := h
      obtain ⟨i, hi, hgi, hfirst, rfl⟩ := ih a ha
      refine ⟨i + 1, by simpa using hi, by simpa using hgi, ?_, by simp⟩
      intro k hk
      cases k with
      | zero => simpa using hr
      | succ k => simpa using hfirst k (by omega)

lemma replaceReviewer_ok_shape (pr : PullRequest) (oldID newID : String)
    (pr' : PullRequest) (h : pr.ReplaceReviewer oldID newID = .ok pr') :
    pr.IsMerged = false ∧
    ∃ i, i < pr.AssignedReviewers.length ∧
      pr.AssignedReviewers[i]? = some oldID ∧
      (∀ k, k < i → pr.AssignedReviewers[k]? ≠ some oldID) ∧
      pr' = { pr with AssignedReviewers := pr.AssignedReviewers.set i newID } := by
  unfold PullRequest.ReplaceReviewer at h
  by_cases hm : pr.IsMerged
  · simp [hm] at h
  · refine ⟨by simpa using hm, ?_⟩
    rw [if_neg hm] at h
    by_cases ha : pr.IsReviewerAssigned oldID
    · rw [if_neg (by simpa using ha)] at h
      cases hrf : replaceFirst pr.AssignedReviewers oldID newID with
      | none => rw [hrf] at h; exact absurd h (by simp)
      | some rs =>
        rw [hrf] at h
        simp only [Except.ok.injEq] at h
        obtain ⟨i, hi, hgi, hfirst, hrs⟩ := replaceFirst_spec oldID newID _ _ hrf
        exact ⟨i, hi, hgi, hfirst, by rw [← h, hrs]⟩
    · rw [if_pos (by simpa using ha)] at h
      exact absurd h (by simp)

lemma merge_of_merged (pr : PullRequest) (now : Nat)
    (h : pr.IsMerged = true) : pr.Merge now = pr := by
  simp [PullRequest.Merge, h]

lemma replaceReviewer_of_merged (pr : PullRequest) (oldID newID : String)
    (h : pr.IsMerged = true) :
    pr.ReplaceReviewer oldID newID = .error .ErrPRMerged := by
  simp [PullRequest.ReplaceReviewer, h]

/-! ## Repository-level lemmas -/

lemma getPR_ok_mem (db : DB) (prID : String) (pr : PullRequest)
    (h : GetPR db prID = .ok pr) : pr ∈ db.prs ∧ pr.PullRequestID = prID := by
  unfold GetPR at h
  cases hf : db.prs.find? (fun p => p.PullRequestID == prID) with
  | none => rw [hf] at h; exact absurd h (by simp)
  | some q =>
    rw [hf] at h
    simp only [Except.ok.injEq] at h
    subst h
    exact ⟨List.mem_of_find?_eq_some hf, by simpa using List.find?_some hf⟩

lemma eq_of_same_prID {prs : List PullRequest}
    (hnodup : (prs.map PullRequest.PullRequestID).Nodup)
    {p q : PullRequest} (hp : p ∈ prs) (hq : q ∈ prs)
    (hid : p.PullRequestID = q.PullRequestID) : p = q :=
  List.inj_on_of_nodup_map hnodup hp hq hid

lemma updatePR_self (db : DB) (pr : PullRequest)
    (hnodup : (db.prs.map PullRequest.PullRequestID).Nodup)
    (hmem : pr ∈ db.prs) :
    UpdatePR db pr = .ok db := by
  unfold UpdatePR
  rw [if_pos (by exact List.any_eq_true.mpr ⟨pr, hmem, by simp⟩)]
  have hmap : ∀ p ∈ db.prs,
      (if p.PullRequestID == pr.PullRequestID then
        { p with PullRequestName := pr.PullRequestName,
                 AuthorID := pr.AuthorID,
                 Status := pr.Status,
                 MergedAt := pr.MergedAt }
      else p) = p := by
    intro p hp
    by_cases hid : p.PullRequestID = pr.PullRequestID
    · have : p = pr := eq_of_same_prID hnodup hp hmem hid
      subst this
      simp
    · rw [if_neg (by simpa using hid)]
  have : db.prs.map (fun p =>
      if p.PullRequestID == pr.PullRequestID then
        { p with PullRequestName := pr.PullRequestName,
                 AuthorID := pr.AuthorID,
                 Status := pr.Status,
                 MergedAt := pr.MergedAt }
      else p) = db.prs := by
    conv_rhs => rw [← List.map_id db.prs]
    exact List.map_congr_left hmap
  rw [this]

lemma mergePR_merged_noop (db : DB) (now : Nat) (prID0 : String)
    (pr : PullRequest)
    (hnodup : (db.prs.map PullRequest.PullRequestID).Nodup)
    (hne : trimSpace prID0 ≠ "")
    (hget : GetPR db (trimSpace prID0) = .ok pr)
    (hm : pr.IsMerged = true) :
    MergePR db now prID0 = (.ok pr, db) := by
  unfold MergePR
  rw [if_neg hne, hget]
  simp only [merge_of_merged pr now hm]
  rw [updatePR_self db pr hnodup (getPR_ok_mem db _ pr hget).1]

/-! ## Atomicity of the bulk workflow -/

lemma doTx_fst_error {α : Type} (db : DB)
    (body : DB → Except DomainError (α × DB)) (e : DomainError)
    (h : (doTx db body).1 = .error e) : (doTx db body).2 = db := by
  unfold doTx at h ⊢
  cases hb : body db with
  | error e' => simp [hb]
  | ok p => rw [hb] at h; exact absurd h (by simp)

/-- C2: whenever `BulkDeactivateTeamMembers` fails — validation,
resolution, a repository failure inside the transaction, or
`NoCandidate` for any affected pull request — the store it returns is
exactly the store it was given: no deactivation and no reviewer
mutation persists. -/
theorem C2_bulkDeactivate_allOrNothing (randFn : Nat → Nat) (db : DB)
    (teamName0 : String) (userIDs : List String) (e : DomainError) (db' : DB)
    (h : BulkDeactivateTeamMembers randFn db teamName0 userIDs = (.error e, db')) :
    db' = db := by
  unfold BulkDeactivateTeamMembers at h
  by_cases h1 : trimSpace teamName0 = "" ∨ userIDs = []
  · rw [if_pos h1] at h
    simp only [Prod.mk.injEq] at h
    exact h.2.symm
  rw [if_neg h1] at h
  cases hn : normalizeIDs userIDs with
  | error e' =>
    rw [hn] at h
    simp only [Prod.mk.injEq] at h
    exact h.2.symm
  | ok normalized =>
    rw [hn] at h
    dsimp only at h
    by_cases h2 : GetTeamMembers db (trimSpace teamName0) = []
    · rw [if_pos h2] at h
      simp only [Prod.mk.injEq] at h
      exact h.2.symm
    rw [if_neg h2] at h
    cases hr : resolveTargets (GetTeamMembers db (trimSpace teamName0)) normalized with
    | error e' =>
      rw [hr] at h
      simp only [Prod.mk.injEq] at h
      exact h.2.symm
    | ok targets =>
      rw [hr] at h
      dsimp only at h
      by_cases h3 : targets = []
      · rw [if_pos h3] at h
        simp only [Prod.mk.injEq] at h
        exact absurd h.1 (by simp)
      rw [if_neg h3] at h
      cases hstep : (doTx db (bulkTxBody randFn (trimSpace teamName0)
          (targets.map (fun u => u.UserID)) targets
          ⟨trimSpace teamName0,
            markInactive normalized (GetTeamMembers db (trimSpace teamName0))⟩)).1 with
      | error e₁ =>
        rw [hstep] at h
        simp only [Prod.mk.injEq] at h
        rw [h.2.symm]
        exact doTx_fst_error _ _ _ hstep
      | ok r =>
        rw [hstep] at h
        simp only [Prod.mk.injEq] at h
        exact absurd h.1 (by simp)

/-! ## Shape lemmas for the transaction-body mutations -/

/-- A pull request stripped of its reviewer list: the part of the row
the reviewer mutations never touch. -/
def prMeta (p : PullRequest) : PullRequest := { p with AssignedReviewers := [] }

lemma removeReviewer_ok_shape (db : DB) (prID uid : String) (db₁ : DB)
    (h : RemoveReviewer db prID uid = .ok db₁) :
    db₁.users = db.users ∧
    db₁.prs = db.prs.map (fun p =>
      if p.PullRequestID == prID then
        { p with AssignedReviewers := p.AssignedReviewers.filter (fun r => r != uid) }
      else p) ∧
    ∃ q ∈ db.prs, q.PullRequestID = prID ∧ uid ∈ q.AssignedReviewers := by
  unfold RemoveReviewer at h
  split at h
  · rename_i hany
    simp only [Except.ok.injEq] at h
    subst h
    obtain ⟨q, hq, hqp⟩ := List.any_eq_true.mp hany
    simp only [Bool.and_eq_true, beq_iff_eq] at hqp
    exact ⟨rfl, rfl, q, hq, hqp.1, by simpa using hqp.2⟩
  · exact absurd h (by simp)

lemma addReviewer_ok_shape (db : DB) (prID uid : String) (db₁ : DB)
    (h : AddReviewer db prID uid = .ok db₁) :
    db₁.users = db.users ∧
    db₁.prs = db.prs.map (fun p =>
      if p.PullRequestID == prID then
        (if p.AssignedReviewers.contains uid then p
         else { p with AssignedReviewers := p.AssignedReviewers ++ [uid] })
      else p) := by
  unfold AddReviewer at h
  split at h
  · simp only [Except.ok.injEq] at h
    subst h
    exact ⟨rfl, rfl⟩
  · exact absurd h (by simp)

lemma deactivateUsers_ok_prs (db : DB) (teamName : String)
    (ids : List String) (db₁ : DB)
    (h : DeactivateUsers db teamName ids = .ok db₁) : db₁.prs = db.prs := by
  unfold DeactivateUsers at h
  split at h
  · simp only [Except.ok.injEq] at h
    subst h
    rfl
  · exact absurd h (by simp)

/-- A reviewer-only update behind an id guard leaves the metadata map
unchanged. -/
lemma map_prMeta_reviewer_update (l : List PullRequest)
    (c : PullRequest → Bool) (g : PullRequest → PullRequest)
    (hg : ∀ p, prMeta (g p) = prMeta p) :
    (l.map (fun p => if c p then g p else p)).map prMeta = l.map prMeta := by
  rw [List.map_map]
  apply List.map_congr_left
  intro p _
  by_cases h : c p
  · simp [h, hg]
  · simp [h]

lemma filter_ne_of_not_mem (R : List String) (a : String) (ha : a ∉ R) :
    R.filter (fun r => r != a) = R :=
  List.filter_eq_self.mpr (fun x hx => by
    simp only [bne_iff_ne, ne_eq, decide_eq_true_eq]
    exact fun he => ha (he ▸ hx))

lemma length_filter_ne_of_nodup (R : List String) (a : String)
    (hnd : R.Nodup) (ha : a ∈ R) :
    (R.filter (fun r => r != a)).length + 1 = R.length := by
  induction R with
  | nil => cases ha
  | cons r R' ih =>
    by_cases hra : r = a
    · have hnotin : a ∉ R' := fun hmem =>
        (List.nodup_cons.mp hnd).1 (hra ▸ hmem)
      simp only [List.filter_cons]
      rw [if_neg (by simp [hra]), filter_ne_of_not_mem R' a hnotin]
      simp
    · have hmem : a ∈ R' := by
        rcases List.mem_cons.mp ha with h | h
        · exact absurd h.symm hra
        · exact h
      have := ih (List.nodup_cons.mp hnd).2 hmem
      simp only [List.filter_cons]
      rw [if_pos (by simpa using hra)]
      simp only [List.length_cons]
      omega

/-- Invariant preservation along `List.foldlM` over `Except`. -/
lemma foldlM_except_inv {σ α ε : Type} (Q : σ → Prop) :
    ∀ (l : List α) (f : σ → α → Except ε σ),
      (∀ s a s', Q s → f s a = .ok s' → Q s') →
      ∀ s s', Q s → l.foldlM f s = .ok s' → Q s' := by
  intro l
  induction l with
  | nil =>
    intro f _ s s' hQ h
    simp only [List.foldlM_nil] at h
    cases h
    exact hQ
  | cons a l ih =>
    intro f hstep s s' hQ h
    rw [List.foldlM_cons] at h
    cases hf : f s a with
    | error e =>
      rw [hf] at h
      exact absurd h (by simp [Bind.bind, Except.bind])
    | ok s₁ =>
      rw [hf] at h
      have h' : l.foldlM f s₁ = .ok s' := by
        simpa [Bind.bind, Except.bind] using h
      exact ih f hstep s₁ s' (hstep s a s₁ hQ hf) h'

lemma processPR_ok_shape (randFn : Nat → Nat) (futureTeam : Team)
    (targetID : String) (st : TxSt) (prID : String) (st' : TxSt)
    (h : processPR randFn futureTeam targetID st prID = .ok st') :
    (∃ pr0, GetPR st.db prID = .ok pr0 ∧ pr0.IsMerged = true ∧ st' = st) ∨
    (∃ pr0 newU db1 db2,
      GetPR st.db prID = .ok pr0 ∧ pr0.IsMerged = false ∧
      SelectReplacementReviewer futureTeam
        (pr0.AssignedReviewers ++ [pr0.AuthorID]) (randFn st.rk) = .ok newU ∧
      RemoveReviewer st.db prID targetID = .ok db1 ∧
      AddReviewer db1 prID newU = .ok db2 ∧
      st' = ⟨db2, st.rk + 1,
        st.reassignments ++ [⟨prID, targetID, newU⟩]⟩) := by
  unfold processPR at h
  cases hget : GetPR st.db prID with
  | error e => rw [hget] at h; exact absurd h (by simp)
  | ok pr0 =>
    rw [hget] at h
    dsimp only at h
    by_cases hm : pr0.IsMerged
    · rw [if_pos hm] at h
      simp only [Except.ok.injEq] at h
      exact Or.inl ⟨pr0, rfl, hm, h.symm⟩
    · rw [if_neg hm] at h
      cases hsel : SelectReplacementReviewer futureTeam
          (pr0.AssignedReviewers ++ [pr0.AuthorID]) (randFn st.rk) with
      | error e => rw [hsel] at h; exact absurd h (by simp)
      | ok newU =>
        rw [hsel] at h
        dsimp only at h
        cases hrem : RemoveReviewer st.db prID targetID with
        | error e => rw [hrem] at h; exact absurd h (by simp)
        | ok db1 =>
          rw [hrem] at h
          dsimp only at h
          cases hadd : AddReviewer db1 prID newU with
          | error e => rw [hadd] at h; exact absurd h (by simp)
          | ok db2 =>
            rw [hadd] at h
            dsimp only at h
            cases hrr : pr0.ReplaceReviewer targetID newU with
            | error e => rw [hrr] at h; exact absurd h (by simp)
            | ok pr1 =>
              rw [hrr] at h
              dsimp only at h
              simp only [Except.ok.injEq] at h
              exact Or.inr ⟨pr0, newU, db1, db2, rfl,
                by simpa using hm, hsel, rfl, hadd, h.symm⟩

/-- Every member of the future roster that is still active is not one of
the requested (normalized) ids. -/
lemma markInactive_active_not_requested (normalized : List String)
    (members : List User) :
    ∀ u ∈ markInactive normalized members, u.IsActive = true →
      u.UserID ∉ normalized := by
  intro u hu hact
  obtain ⟨m, _, heq⟩ := List.mem_map.mp hu
  by_cases hc : normalized.contains m.UserID
  · rw [if_pos hc] at heq
    rw [← heq] at hact
    exact absurd hact (by simp)
  · rw [if_neg hc] at heq
    rw [← heq]
    simpa using hc

/-- Invariant for C1: no accumulated reassignment record names a
requested id as the replacement. -/
def RecordsNotTargets (normalized : List String) (st : TxSt) : Prop :=
  ∀ r ∈ st.reassignments, r.NewUserID ∉ normalized

lemma processPR_records_step (randFn : Nat → Nat) (futureTeam : Team)
    (targetID prID : String) (normalized : List String)
    (hfut : ∀ u ∈ futureTeam.Members, u.IsActive = true →
      u.UserID ∉ normalized)
    (st st' : TxSt) (hQ : RecordsNotTargets normalized st)
    (h : processPR randFn futureTeam targetID st prID = .ok st') :
    RecordsNotTargets normalized st' := by
  rcases processPR_ok_shape randFn futureTeam targetID st prID st' h with
    ⟨pr0, _, _, rfl⟩ | ⟨pr0, newU, db1, db2, hget, hm, hsel, hrem, hadd, rfl⟩
  · exact hQ
  · intro r hr
    rcases List.mem_append.mp hr with hmem | hmem
    · exact hQ r hmem
    · have : r = ⟨prID, targetID, newU⟩ := by simpa using hmem
      subst this
      obtain ⟨u, hu, huid⟩ := selectReplacementReviewer_ok _ _ _ _ hsel
      obtain ⟨humem, huact, -⟩ :=
        (mem_replacement_candidates_iff futureTeam _ u).mp hu
      exact huid ▸ hfut u humem huact

lemma processTarget_records_step (randFn : Nat → Nat) (futureTeam : Team)
    (normalized : List String)
    (hfut : ∀ u ∈ futureTeam.Members, u.IsActive = true →
      u.UserID ∉ normalized)
    (st st' : TxSt) (target : User) (hQ : RecordsNotTargets normalized st)
    (h : processTarget randFn futureTeam st target = .ok st') :
    RecordsNotTargets normalized st' := by
  unfold processTarget at h
  exact foldlM_except_inv (RecordsNotTargets normalized) _ _
    (fun s a s' hs ha =>
      processPR_records_step randFn futureTeam target.UserID a normalized
        hfut s s' hs ha) st st' hQ h

/-! ## Lemmas about input normalization -/

lemma normalizeStep_ok_mono (acc : List String) (raw : String)
    (acc' : List String) (h : normalizeStep acc raw = .ok acc') :
    (∀ x ∈ acc, x ∈ acc') ∧ trimSpace raw ∈ acc' := by
  unfold normalizeStep at h
  by_cases h1 : trimSpace raw = ""
  · rw [if_pos h1] at h; exact absurd h (by simp)
  · rw [if_neg h1] at h
    by_cases h2 : acc.contains (trimSpace raw)
    · rw [if_pos h2] at h
      simp only [Except.ok.injEq] at h
      subst h
      exact ⟨fun x hx => hx, by simpa using h2⟩
    · rw [if_neg h2] at h
      simp only [Except.ok.injEq] at h
      subst h
      exact ⟨fun x hx => List.mem_append_left _ hx, List.mem_append_right _ (by simp)⟩

lemma normalizeFold_mem :
    ∀ (l : List String) (acc res : List String),
      l.foldlM normalizeStep acc = .ok res →
      (∀ x ∈ acc, x ∈ res) ∧ ∀ raw ∈ l, trimSpace raw ∈ res := by
  intro l
  induction l with
  | nil =>
    intro acc res h
    simp only [List.foldlM_nil] at h
    cases h
    exact ⟨fun x hx => hx, by simp⟩
  | cons a l ih =>
    intro acc res h
    rw [List.foldlM_cons] at h
    cases hs : normalizeStep acc a with
    | error e =>
      rw [hs] at h
      exact absurd h (by simp [Bind.bind, Except.bind])
    | ok acc₁ =>
      rw [hs] at h
      have h' : l.foldlM normalizeStep acc₁ = .ok res := by
        simpa [Bind.bind, Except.bind] using h
      obtain ⟨hmono, hadds⟩ := normalizeStep_ok_mono acc a acc₁ hs
      obtain ⟨hmono', hall⟩ := ih acc₁ res h'
      refine ⟨fun x hx => hmono' x (hmono x hx), ?_⟩
      intro raw hraw
      rcases List.mem_cons.mp hraw with hraw | hraw
      · exact hraw ▸ hmono' _ hadds
      · exact hall raw hraw

lemma normalizeIDs_mem (userIDs normalized : List String)
    (h : normalizeIDs userIDs = .ok normalized) :
    ∀ raw ∈ userIDs, trimSpace raw ∈ normalized :=
  (normalizeFold_mem userIDs [] normalized h).2

/-! ## Extracting the successful bulk transaction -/

lemma doTx_fst_ok {α : Type} (db : DB)
    (body : DB → Except DomainError (α × DB)) (a : α)
    (h : (doTx db body).1 = .ok a) :
    body db = .ok (a, (doTx db body).2) := by
  unfold doTx at h ⊢
  cases hb : body db with
  | error e => rw [hb] at h; exact absurd h (by simp)
  | ok p =>
    cases p with
    | mk a₁ db₁ =>
      rw [hb] at h
      dsimp only at h ⊢
      injection h with h
      subst h
      rfl

lemma bulkTxBody_ok_shape (randFn : Nat → Nat) (teamName : String)
    (targetIDs : List String) (targets : List User) (futureTeam : Team)
    (txDb : DB) (rs : List Reassignment) (dbOut : DB)
    (h : bulkTxBody randFn teamName targetIDs targets futureTeam txDb =
      .ok (rs, dbOut)) :
    ∃ db0 st, DeactivateUsers txDb teamName targetIDs = .ok db0 ∧
      targets.foldlM (processTarget randFn futureTeam)
        ⟨db0, 0, []⟩ = .ok st ∧
      rs = st.reassignments ∧ dbOut = st.db := by
  unfold bulkTxBody at h
  cases hd : DeactivateUsers txDb teamName targetIDs with
  | error e => rw [hd] at h; exact absurd h (by simp)
  | ok db0 =>
    rw [hd] at h
    dsimp only at h
    cases hf : targets.foldlM (processTarget randFn futureTeam)
        ⟨db0, 0, []⟩ with
    | error e => rw [hf] at h; exact absurd h (by simp)
    | ok st =>
      rw [hf] at h
      dsimp only at h
      simp only [Except.ok.injEq, Prod.mk.injEq] at h
      refine ⟨db0, st, rfl, hf, ?_, ?_⟩
      · first
        | exact h.1
        | exact h.1.symm
      · first
        | exact h.2
        | exact h.2.symm

/-- C1: on success, every reassignment record produced by
`BulkDeactivateTeamMembers` names a replacement that is not one of the
requested user ids (after trimming): replacements are drawn from the
future roster, in which every requested id is already inactive. -/
theorem C1_bulk_replacements_avoid_targets (randFn : Nat → Nat) (db : DB)
    (teamName0 : String) (userIDs : List String) (team : Team)
    (deact : List String) (rs : List Reassignment) (db' : DB)
    (h : BulkDeactivateTeamMembers randFn db teamName0 userIDs =
      (.ok (team, deact, rs), db')) :
    ∀ r ∈ rs, r.NewUserID ∉ userIDs.map trimSpace := by
  unfold BulkDeactivateTeamMembers at h
  by_cases h1 : trimSpace teamName0 = "" ∨ userIDs = []
  · rw [if_pos h1] at h
    simp at h
  rw [if_neg h1] at h
  cases hn : normalizeIDs userIDs with
  | error e' => rw [hn] at h; simp at h
  | ok normalized =>
    rw [hn] at h
    dsimp only at h
    by_cases h2 : GetTeamMembers db (trimSpace teamName0) = []
    · rw [if_pos h2] at h; simp at h
    rw [if_neg h2] at h
    cases hr : resolveTargets (GetTeamMembers db (trimSpace teamName0)) normalized with
    | error e' => rw [hr] at h; simp at h
    | ok targets =>
      rw [hr] at h
      dsimp only at h
      by_cases h3 : targets = []
      · rw [if_pos h3] at h
        simp only [Prod.mk.injEq, Except.ok.injEq] at h
        have hrs0 : rs = [] := by
          have h1 := h.1
          simp only [Except.ok.injEq, Prod.mk.injEq] at h1
          first
          | exact h1.2.2
          | exact h1.2.2.symm
        subst hrs0
        simp
      rw [if_neg h3] at h
      cases hstep : (doTx db (bulkTxBody randFn (trimSpace teamName0)
          (targets.map (fun u => u.UserID)) targets
          ⟨trimSpace teamName0,
            markInactive normalized (GetTeamMembers db (trimSpace teamName0))⟩)).1 with
      | error e₁ => rw [hstep] at h; simp at h
      | ok rs₁ =>
        rw [hstep] at h
        simp only [Prod.mk.injEq, Except.ok.injEq] at h
        have hrs : rs = rs₁ := by
          have h1 := h.1
          simp only [Except.ok.injEq, Prod.mk.injEq] at h1
          first
          | exact h1.2.2
          | exact h1.2.2.symm
        subst hrs
        have hbody := doTx_fst_ok db _ _ hstep
        obtain ⟨db0, st, hd, hf, hrs_eq, -⟩ :=
          bulkTxBody_ok_shape _ _ _ _ _ _ _ _ hbody
        have hfut := markInactive_active_not_requested normalized
          (GetTeamMembers db (trimSpace teamName0))
        have hrecords : RecordsNotTargets normalized st := by
          refine foldlM_except_inv (RecordsNotTargets normalized) targets _
            (fun s a s' hs ha =>
              processTarget_records_step randFn _ normalized hfut s s' a hs ha)
            _ _ ?_ hf
          intro r hr
          simp [TxSt.reassignments] at hr
        intro r hr hmem
        obtain ⟨raw, hraw, hrawid⟩ := List.mem_map.mp hmem
        have : r.NewUserID ∈ normalized :=
          hrawid ▸ normalizeIDs_mem userIDs normalized hn raw hraw
        exact hrecords r (hrs_eq ▸ hr) this

/-! ## The transaction invariant: metadata frame, frozen merged rows,
preserved reviewer counts -/

/-- Invariant of the bulk transaction body relative to the pull-request
table `prs₀` at transaction start: row metadata is untouched, merged
rows are entirely untouched, every row keeps its reviewer count and
reviewer distinctness, and every record refers to a row that was open at
transaction start. -/
def TxInv (prs₀ : List PullRequest) (st : TxSt) : Prop :=
  st.db.prs.map prMeta = prs₀.map prMeta ∧
  (∀ (i : Nat) (pr : PullRequest), prs₀[i]? = some pr →
    pr.IsMerged = true → st.db.prs[i]? = some pr) ∧
  (∀ (i : Nat) (pr pr' : PullRequest), prs₀[i]? = some pr →
    st.db.prs[i]? = some pr' →
    pr'.AssignedReviewers.length = pr.AssignedReviewers.length ∧
    pr'.AssignedReviewers.Nodup) ∧
  (∀ r ∈ st.reassignments, ∃ pr, pr ∈ prs₀ ∧ pr.IsMerged = false ∧
    r.PullRequestID = pr.PullRequestID)

lemma meta_map_length {l₁ l₂ : List PullRequest}
    (h : l₁.map prMeta = l₂.map prMeta) : l₁.length = l₂.length := by
  have := congrArg List.length h
  simpa using this

lemma meta_map_fields {l₁ l₂ : List PullRequest}
    (h : l₁.map prMeta = l₂.map prMeta) (i : Nat) (p₁ p₂ : PullRequest)
    (h₁ : l₁[i]? = some p₁) (h₂ : l₂[i]? = some p₂) :
    p₁.PullRequestID = p₂.PullRequestID ∧ p₁.Status = p₂.Status := by
  have hmm : (l₁.map prMeta)[i]? = (l₂.map prMeta)[i]? := by rw [h]
  rw [List.getElem?_map, List.getElem?_map, h₁, h₂] at hmm
  have hmeta : prMeta p₁ = prMeta p₂ := by simpa using hmm
  have h1 : (prMeta p₁).PullRequestID = (prMeta p₂).PullRequestID :=
    congrArg _ hmeta
  have h2 : (prMeta p₁).Status = (prMeta p₂).Status := congrArg _ hmeta
  exact ⟨h1, h2⟩

lemma meta_map_ids {l₁ l₂ : List PullRequest}
    (h : l₁.map prMeta = l₂.map prMeta) :
    l₁.map PullRequest.PullRequestID = l₂.map PullRequest.PullRequestID := by
  have h1 : ∀ l : List PullRequest,
      l.map PullRequest.PullRequestID =
        (l.map prMeta).map PullRequest.PullRequestID := by
    intro l
    rw [List.map_map]
    apply List.map_congr_left
    intro p _
    rfl
  rw [h1 l₁, h1 l₂, h]

/-- The per-row effect of `RemoveReviewer prID targetID` followed by
`AddReviewer prID newU`, read off positionally. -/
lemma remove_add_getElem (stdb : DB) (prID targetID newU : String)
    (db1 db2 : DB)
    (hrem : RemoveReviewer stdb prID targetID = .ok db1)
    (hadd : AddReviewer db1 prID newU = .ok db2)
    (i : Nat) (pr' : PullRequest) (hi : stdb.prs[i]? = some pr') :
    (pr'.PullRequestID ≠ prID → db2.prs[i]? = some pr') ∧
    (pr'.PullRequestID = prID →
      db2.prs[i]? = some (
        if (pr'.AssignedReviewers.filter (fun r => r != targetID)).contains newU then
          { pr' with AssignedReviewers :=
              pr'.AssignedReviewers.filter (fun r => r != targetID) }
        else
          { pr' with AssignedReviewers :=
              pr'.AssignedReviewers.filter (fun r => r != targetID) ++ [newU] })) := by
  obtain ⟨-, hprs1, -⟩ := removeReviewer_ok_shape stdb prID targetID db1 hrem
  obtain ⟨-, hprs2⟩ := addReviewer_ok_shape db1 prID newU db2 hadd
  have h1 : db1.prs[i]? = some (
      if pr'.PullRequestID == prID then
        { pr' with AssignedReviewers :=
            pr'.AssignedReviewers.filter (fun r => r != targetID) }
      else pr') := by
    rw [hprs1, List.getElem?_map, hi]
    rfl
  constructor
  · intro hne
    have hb : (pr'.PullRequestID == prID) = false := by simpa using hne
    rw [hb] at h1
    simp only [Bool.false_eq_true, if_false] at h1
    rw [hprs2, List.getElem?_map, h1]
    simp only [Option.map_some']
    rw [if_neg (by simpa using hne)]
  · intro heq
    have hb : (pr'.PullRequestID == prID) = true := by simpa using heq
    rw [hb] at h1
    simp only [if_true] at h1
    rw [hprs2, List.getElem?_map, h1]
    simp only [Option.map_some']
    have : ({ pr' with AssignedReviewers :=
        pr'.AssignedReviewers.filter (fun r => r != targetID) }).PullRequestID
        = prID := heq
    rw [if_pos (by simpa using this)]

lemma processPR_txinv_step (randFn : Nat → Nat) (futureTeam : Team)
    (targetID prID : String) (prs₀ : List PullRequest)
    (hids : (prs₀.map PullRequest.PullRequestID).Nodup)
    (st st' : TxSt) (hQ : TxInv prs₀ st)
    (h : processPR randFn futureTeam targetID st prID = .ok st') :
    TxInv prs₀ st' := by
  obtain ⟨hmeta, hfrozen, hcount, hrecords⟩ := hQ
  rcases processPR_ok_shape randFn futureTeam targetID st prID st' h with
    ⟨pr0, _, _, rfl⟩ | ⟨pr0, newU, db1, db2, hget, hm, hsel, hrem, hadd, rfl⟩
  · exact ⟨hmeta, hfrozen, hcount, hrecords⟩
  -- the interesting case: a replacement happened on the open row `pr0`
  obtain ⟨hpmem, hpid⟩ := getPR_ok_mem st.db prID pr0 hget
  have hidsSt : (st.db.prs.map PullRequest.PullRequestID).Nodup := by
    rw [meta_map_ids hmeta]
    exact hids
  -- the row removed from is `pr0` itself
  obtain ⟨-, hprs1, q, hqmem, hqid, hqrev⟩ :=
    removeReviewer_ok_shape st.db prID targetID db1 hrem
  have hq0 : q = pr0 := eq_of_same_prID hidsSt hqmem hpmem (hqid.trans hpid.symm)
  have htmem : targetID ∈ pr0.AssignedReviewers := hq0 ▸ hqrev
  -- the replacement is not among the current reviewers
  obtain ⟨u, hu, huid⟩ := selectReplacementReviewer_ok _ _ _ _ hsel
  have hnewnot : newU ∉ pr0.AssignedReviewers := by
    have := (List.mem_filter.mp hu).2
    simp only [Bool.not_eq_eq_eq_not, Bool.not_true, List.contains_eq_any_beq] at this
    intro hmem
    have : u.UserID ∈ pr0.AssignedReviewers ++ [pr0.AuthorID] →
        False := by
      intro hx
      have hcontains := (List.mem_filter.mp hu).2
      simp only [Bool.not_eq_true'] at hcontains
      have : (pr0.AssignedReviewers ++ [pr0.AuthorID]).contains u.UserID = true := by
        simpa using hx
      rw [this] at hcontains
      cases hcontains
    exact this (List.mem_append_left _ (huid ▸ hmem))
  -- metadata preservation
  have hmeta1 : db1.prs.map prMeta = st.db.prs.map prMeta := by
    rw [hprs1]
    exact map_prMeta_reviewer_update _ _ _ (fun p => rfl)
  obtain ⟨-, hprs2⟩ := addReviewer_ok_shape db1 prID newU db2 hadd
  have hmeta2 : db2.prs.map prMeta = db1.prs.map prMeta := by
    rw [hprs2]
    refine map_prMeta_reviewer_update _ _ _ (fun p => ?_)
    by_cases hc : p.AssignedReviewers.contains newU
    · rw [if_pos hc]
    · rw [if_neg hc]
      rfl
  refine ⟨by rw [hmeta2, hmeta1, hmeta], ?_, ?_, ?_⟩
  · -- merged rows untouched
    intro i pr hpr hmerged
    have hsti : st.db.prs[i]? = some pr := hfrozen i pr hpr hmerged
    have hne : pr.PullRequestID ≠ prID := by
      intro heq
      have : pr = pr0 := eq_of_same_prID hidsSt (List.getElem?_mem hsti)
        hpmem (heq.trans hpid.symm)
      rw [this] at hmerged
      rw [hmerged] at hm
      cases hm
    exact (remove_add_getElem st.db prID targetID newU db1 db2 hrem hadd
      i pr hsti).1 hne
  · -- reviewer count and distinctness preserved
    intro i pr pr'' hpr hdb2
    dsimp only at hdb2
    have hilt : i < prs₀.length := (List.getElem?_eq_some.mp hpr).1
    have hstlen : st.db.prs.length = prs₀.length := meta_map_length hmeta
    have hsti : st.db.prs[i]? = some st.db.prs[i] :=
      List.getElem?_eq_getElem (by omega)
    obtain ⟨hlen', hnd'⟩ := hcount i pr _ hpr hsti
    by_cases hne : st.db.prs[i].PullRequestID = prID
    · have hpr0i : st.db.prs[i] = pr0 :=
        eq_of_same_prID hidsSt (List.getElem?_mem hsti) hpmem
          (hne.trans hpid.symm)
      have hstep2 := (remove_add_getElem st.db prID targetID newU db1 db2
        hrem hadd i _ hsti).2 hne
      rw [hdb2] at hstep2
      injection hstep2 with hpr''
      have hcontains : (st.db.prs[i].AssignedReviewers.filter
          (fun r => r != targetID)).contains newU = false := by
        rw [Bool.eq_false_iff]
        intro hcon
        have hmemf : newU ∈ st.db.prs[i].AssignedReviewers.filter
            (fun r => r != targetID) := by simpa using hcon
        refine hnewnot ?_
        rw [← hpr0i]
        exact (List.mem_filter.mp hmemf).1
      rw [hcontains] at hpr''
      simp only [Bool.false_eq_true, if_false] at hpr''
      subst hpr''
      have hflen := length_filter_ne_of_nodup
        st.db.prs[i].AssignedReviewers targetID hnd'
        (by rw [hpr0i]; exact htmem)
      have hfnd : (st.db.prs[i].AssignedReviewers.filter
          (fun r => r != targetID)).Nodup := hnd'.filter _
      have hfnot : newU ∉ st.db.prs[i].AssignedReviewers.filter
          (fun r => r != targetID) := by
        intro hmem
        refine hnewnot ?_
        rw [← hpr0i]
        exact (List.mem_filter.mp hmem).1
      constructor
      · dsimp only
        simp only [List.length_append, List.length_cons, List.length_nil]
        omega
      · dsimp only
        simp [List.nodup_append, hfnd, hfnot]
    · have hstep1 := (remove_add_getElem st.db prID targetID newU db1 db2
        hrem hadd i _ hsti).1 hne
      rw [hdb2] at hstep1
      injection hstep1 with hpr''
      rw [hpr'']
      exact ⟨hlen', hnd'⟩
  · -- record references: old ones unchanged, the new one refers to `pr0`
    intro r hr
    rcases List.mem_append.mp hr with hmem | hmem
    · exact hrecords r hmem
    · have : r = ⟨prID, targetID, newU⟩ := by simpa using hmem
      subst this
      obtain ⟨j, hj⟩ := List.mem_iff_getElem?.mp hpmem
      have hjlt : j < st.db.prs.length := (List.getElem?_eq_some.mp hj).1
      have hstlen : st.db.prs.length = prs₀.length := meta_map_length hmeta
      have hj0 : prs₀[j]? = some prs₀[j] :=
        List.getElem?_eq_getElem (by omega)
      obtain ⟨hidj, hstatusj⟩ := meta_map_fields hmeta j pr0 prs₀[j] hj hj0
      refine ⟨prs₀[j], List.getElem?_mem hj0, ?_, ?_⟩
      · unfold PullRequest.IsMerged at hm ⊢
        rw [← hstatusj]
        exact hm
      · exact (hidj ▸ hpid.symm : _)

lemma processTarget_txinv_step (randFn : Nat → Nat) (futureTeam : Team)
    (prs₀ : List PullRequest)
    (hids : (prs₀.map PullRequest.PullRequestID).Nodup)
    (st st' : TxSt) (target : User) (hQ : TxInv prs₀ st)
    (h : processTarget randFn futureTeam st target = .ok st') :
    TxInv prs₀ st' := by
  unfold processTarget at h
  exact foldlM_except_inv (TxInv prs₀) _ _
    (fun s a s' hs ha =>
      processPR_txinv_step randFn futureTeam target.UserID a prs₀ hids
        s s' hs ha) st st' hQ h

/-- On success, the bulk workflow leaves every pull-request row's
metadata intact, leaves merged rows entirely untouched, preserves each
row's reviewer count and distinctness, and only records reassignments
against rows that were open before the call. -/
lemma bulk_ok_txinv (randFn : Nat → Nat) (db : DB) (teamName0 : String)
    (userIDs : List String) (team : Team) (deact : List String)
    (rs : List Reassignment) (db' : DB)
    (hids : (db.prs.map PullRequest.PullRequestID).Nodup)
    (hrevs : ∀ pr ∈ db.prs, pr.AssignedReviewers.Nodup)
    (h : BulkDeactivateTeamMembers randFn db teamName0 userIDs =
      (.ok (team, deact, rs), db')) :
    db'.prs.map prMeta = db.prs.map prMeta ∧
    (∀ (i : Nat) (pr : PullRequest), db.prs[i]? = some pr →
      pr.IsMerged = true → db'.prs[i]? = some pr) ∧
    (∀ (i : Nat) (pr pr' : PullRequest), db.prs[i]? = some pr →
      db'.prs[i]? = some pr' →
      pr'.AssignedReviewers.length = pr.AssignedReviewers.length ∧
      pr'.AssignedReviewers.Nodup) ∧
    (∀ r ∈ rs, ∃ pr, pr ∈ db.prs ∧ pr.IsMerged = false ∧
      r.PullRequestID = pr.PullRequestID) := by
  have htrivial : ∀ (dbx : DB), dbx = db →
      (dbx.prs.map prMeta = db.prs.map prMeta ∧
       (∀ (i : Nat) (pr : PullRequest), db.prs[i]? = some pr →
         pr.IsMerged = true → dbx.prs[i]? = some pr) ∧
       (∀ (i : Nat) (pr pr' : PullRequest), db.prs[i]? = some pr →
         dbx.prs[i]? = some pr' →
         pr'.AssignedReviewers.length = pr.AssignedReviewers.length ∧
         pr'.AssignedReviewers.Nodup)) := by
    rintro dbx rfl
    refine ⟨rfl, fun i pr hi _ => hi, ?_⟩
    intro i pr pr' hi hi'
    rw [hi] at hi'
    injection hi' with hi'
    rw [← hi']
    exact ⟨rfl, hrevs pr (List.getElem?_mem hi)⟩
  unfold BulkDeactivateTeamMembers at h
  by_cases h1 : trimSpace teamName0 = "" ∨ userIDs = []
  · rw [if_pos h1] at h
    simp at h
  rw [if_neg h1] at h
  cases hn : normalizeIDs userIDs with
  | error e' => rw [hn] at h; simp at h
  | ok normalized =>
    rw [hn] at h
    dsimp only at h
    by_cases h2 : GetTeamMembers db (trimSpace teamName0) = []
    · rw [if_pos h2] at h; simp at h
    rw [if_neg h2] at h
    cases hr : resolveTargets (GetTeamMembers db (trimSpace teamName0)) normalized with
    | error e' => rw [hr] at h; simp at h
    | ok targets =>
      rw [hr] at h
      dsimp only at h
      by_cases h3 : targets = []
      · rw [if_pos h3] at h
        simp only [Prod.mk.injEq, Except.ok.injEq] at h
        have hdb : db' = db := by
          first
          | exact h.2
          | exact h.2.symm
        have hrs0 : rs = [] := by
          first
          | exact h.1.2.2
          | exact h.1.2.2.symm
        have ht := htrivial db' hdb
        refine ⟨ht.1, ht.2.1, ht.2.2, ?_⟩
        rw [hrs0]
        simp
      rw [if_neg h3] at h
      cases hstep : (doTx db (bulkTxBody randFn (trimSpace teamName0)
          (targets.map (fun u => u.UserID)) targets
          ⟨trimSpace teamName0,
            markInactive normalized (GetTeamMembers db (trimSpace teamName0))⟩)).1 with
      | error e₁ => rw [hstep] at h; simp at h
      | ok rs₁ =>
        rw [hstep] at h
        simp only [Prod.mk.injEq, Except.ok.injEq] at h
        have hrs : rs = rs₁ := by
          first
          | exact h.1.2.2
          | exact h.1.2.2.symm
        subst hrs
        have hbody := doTx_fst_ok db _ _ hstep
        obtain ⟨db0, st, hd, hf, hrs_eq, hdbout⟩ :=
          bulkTxBody_ok_shape _ _ _ _ _ _ _ _ hbody
        have hdb' : db' = st.db := by
          have hd2 : (doTx db (bulkTxBody randFn (trimSpace teamName0)
              (targets.map (fun u => u.UserID)) targets
              ⟨trimSpace teamName0,
                markInactive normalized (GetTeamMembers db (trimSpace teamName0))⟩)).2 = db' := by
            first
            | exact h.2
            | exact h.2.symm
          rw [← hd2, ← hdbout]
        have hbase : TxInv db.prs ⟨db0, 0, []⟩ := by
          have hprs0 : db0.prs = db.prs := deactivateUsers_ok_prs _ _ _ _ hd
          refine ⟨?_, ?_, ?_, by simp⟩
          · dsimp only
            rw [hprs0]
          · intro i pr hi _
            dsimp only
            rw [hprs0]
            exact hi
          · intro i pr pr' hi hi'
            dsimp only at hi'
            rw [hprs0, hi] at hi'
            injection hi' with hi'
            rw [← hi']
            exact ⟨rfl, hrevs pr (List.getElem?_mem hi)⟩
        have hfinal : TxInv db.prs st :=
          foldlM_except_inv (TxInv db.prs) _ _
            (fun s a s' hs ha =>
              processTarget_txinv_step randFn _ db.prs hids s s' a hs ha)
            _ _ hbase hf
        obtain ⟨hm1, hm2, hm3, hm4⟩ := hfinal
        subst hdb'
        exact ⟨hm1, hm2, hm3, fun r hr => hm4 r (hrs_eq ▸ hr)⟩

/-- C5: a merged pull request is terminal: the domain `Merge` is the
identity on it, the service-level merge succeeds again without changing
the stored row, `ReplaceReviewer` refuses to touch its reviewer list,
and the bulk workflow leaves every merged row untouched and emits no
reassignment record for it. -/
theorem C5_merged_is_terminal :
    (∀ (pr : PullRequest) (now : Nat), pr.IsMerged = true →
      pr.Merge now = pr) ∧
    (∀ (pr : PullRequest) (oldID newID : String), pr.IsMerged = true →
      pr.ReplaceReviewer oldID newID = .error .ErrPRMerged) ∧
    (∀ (db : DB) (now : Nat) (prID0 : String) (pr : PullRequest),
      (db.prs.map PullRequest.PullRequestID).Nodup →
      trimSpace prID0 ≠ "" →
      GetPR db (trimSpace prID0) = .ok pr → pr.IsMerged = true →
      MergePR db now prID0 = (.ok pr, db)) ∧
    (∀ (randFn : Nat → Nat) (db : DB) (teamName0 : String)
      (userIDs : List String) (team : Team) (deact : List String)
      (rs : List Reassignment) (db' : DB),
      (db.prs.map PullRequest.PullRequestID).Nodup →
      (∀ pr ∈ db.prs, pr.AssignedReviewers.Nodup) →
      BulkDeactivateTeamMembers randFn db teamName0 userIDs =
        (.ok (team, deact, rs), db') →
      ∀ (i : Nat) (pr : PullRequest), db.prs[i]? = some pr →
        pr.IsMerged = true →
        db'.prs[i]? = some pr ∧
        ∀ r ∈ rs, r.PullRequestID ≠ pr.PullRequestID) := by
  refine ⟨merge_of_merged, replaceReviewer_of_merged,
    fun db now prID0 pr hids hne hget hm =>
      mergePR_merged_noop db now prID0 pr hids hne hget hm, ?_⟩
  intro randFn db teamName0 userIDs team deact rs db' hids hrevs h i pr hi hm
  obtain ⟨-, hfrozen, -, hrecords⟩ :=
    bulk_ok_txinv randFn db teamName0 userIDs team deact rs db' hids hrevs h
  refine ⟨hfrozen i pr hi hm, ?_⟩
  intro r hr heq
  obtain ⟨pr₂, hpr₂, hopen, hrid⟩ := hrecords r hr
  have : pr₂ = pr := eq_of_same_prID hids hpr₂ (List.getElem?_mem hi)
    (by rw [← hrid, heq])
  rw [this] at hopen
  rw [hm] at hopen
  cases hopen

/-- Anatomy of a successful `ReassignReviewer` call: the validations
passed, a replacement was selected against the old reviewer's team
roster excluding the current reviewers and the author, the old reviewer
was removed and the new one added in the transaction, and the in-memory
substitution succeeded. -/
lemma reassignReviewer_ok_shape (db : DB) (rand : Nat)
    (prID0 oldID0 : String) (pr' : PullRequest) (newU : String) (db' : DB)
    (h : ReassignReviewer db rand prID0 oldID0 = (.ok (pr', newU), db')) :
    trimSpace prID0 ≠ "" ∧ trimSpace oldID0 ≠ "" ∧
    ∃ pr oldUser,
      GetPR db (trimSpace prID0) = .ok pr ∧
      pr.CanReassign = true ∧
      pr.IsReviewerAssigned (trimSpace oldID0) = true ∧
      GetUser db (trimSpace oldID0) = .ok oldUser ∧
      SelectReplacementReviewer
        ⟨oldUser.TeamName, GetTeamMembers db oldUser.TeamName⟩
        (pr.AssignedReviewers ++ [pr.AuthorID]) rand = .ok newU ∧
      pr.ReplaceReviewer (trimSpace oldID0) newU = .ok pr' ∧
      ∃ db1, RemoveReviewer db (trimSpace prID0) (trimSpace oldID0) = .ok db1 ∧
        AddReviewer db1 (trimSpace prID0) newU = .ok db' := by
  unfold ReassignReviewer at h
  by_cases h1 : trimSpace prID0 = "" ∨ trimSpace oldID0 = ""
  · rw [if_pos h1] at h
    simp at h
  rw [if_neg h1] at h
  push_neg at h1
  cases hget : GetPR db (trimSpace prID0) with
  | error e => rw [hget] at h; simp at h
  | ok pr =>
    rw [hget] at h
    dsimp only at h
    by_cases hcr : pr.CanReassign
    · rw [if_neg (by simpa using hcr)] at h
      by_cases has : pr.IsReviewerAssigned (trimSpace oldID0)
      · rw [if_neg (by simpa using has)] at h
        cases hgu : GetUser db (trimSpace oldID0) with
        | error e => rw [hgu] at h; simp at h
        | ok oldUser =>
          rw [hgu] at h
          dsimp only at h
          cases hsel : SelectReplacementReviewer
              ⟨oldUser.TeamName, GetTeamMembers db oldUser.TeamName⟩
              (pr.AssignedReviewers ++ [pr.AuthorID]) rand with
          | error e => rw [hsel] at h; simp at h
          | ok newU₁ =>
            rw [hsel] at h
            dsimp only at h
            cases hstep : (doTx db (fun txDb =>
                match RemoveReviewer txDb (trimSpace prID0) (trimSpace oldID0) with
                | .error e => .error e
                | .ok db1 =>
                  match AddReviewer db1 (trimSpace prID0) newU₁ with
                  | .error e => .error e
                  | .ok db2 => .ok ((), db2))).1 with
            | error e => rw [hstep] at h; simp at h
            | ok u =>
              rw [hstep] at h
              dsimp only at h
              cases hrr : pr.ReplaceReviewer (trimSpace oldID0) newU₁ with
              | error e => rw [hrr] at h; simp at h
              | ok pr₁ =>
                rw [hrr] at h
                dsimp only at h
                simp only [Prod.mk.injEq, Except.ok.injEq] at h
                have hpr' : pr₁ = pr' := by
                  first
                  | exact h.1.1
                  | exact h.1.1.symm
                have hnew : newU₁ = newU := by
                  first
                  | exact h.1.2
                  | exact h.1.2.symm
                subst hpr'
                subst hnew
                have hbody := doTx_fst_ok db _ _ hstep
                have hdb' : (doTx db (fun txDb =>
                    match RemoveReviewer txDb (trimSpace prID0) (trimSpace oldID0) with
                    | .error e => .error e
                    | .ok db1 =>
                      match AddReviewer db1 (trimSpace prID0) newU₁ with
                      | .error e => .error e
                      | .ok db2 => .ok ((), db2))).2 = db' := by
                  first
                  | exact h.2
                  | exact h.2.symm
                rw [hdb'] at hbody
                refine ⟨h1.1, h1.2, pr, oldUser, rfl, by simpa using hcr,
                  by simpa using has, rfl, hsel, hrr, ?_⟩
                cases hrem : RemoveReviewer db (trimSpace prID0) (trimSpace oldID0) with
                | error e => rw [hrem] at hbody; simp at hbody
                | ok db1 =>
                  rw [hrem] at hbody
                  dsimp only at hbody
                  cases hadd : AddReviewer db1 (trimSpace prID0) newU₁ with
                  | error e => rw [hadd] at hbody; simp at hbody
                  | ok db2 =>
                    rw [hadd] at hbody
                    dsimp only at hbody
                    simp only [Except.ok.injEq, Prod.mk.injEq] at hbody
                    refine ⟨db1, rfl, ?_⟩
                    rw [← hbody.2]
                    exact hadd
      · rw [if_pos (by simpa using has)] at h
        simp at h
    · rw [if_pos (by simpa using hcr)] at h
      simp at h

/-- A `ReplaceReviewer` success, phrased through `List.set` at the first
occurrence of the old reviewer. -/
lemma replaceReviewer_ok_set (pr : PullRequest) (oldID newID : String)
    (pr' : PullRequest) (h : pr.ReplaceReviewer oldID newID = .ok pr') :
    ∃ i, i < pr.AssignedReviewers.length ∧
      pr.AssignedReviewers[i]? = some oldID ∧
      (∀ k, k < i → pr.AssignedReviewers[k]? ≠ some oldID) ∧
      pr'.AssignedReviewers = pr.AssignedReviewers.set i newID ∧
      pr'.Status = pr.Status ∧ pr'.AuthorID = pr.AuthorID ∧
      pr'.PullRequestID = pr.PullRequestID := by
  obtain ⟨-, i, hi, hgi, hfirst, hpr'⟩ :=
    replaceReviewer_ok_shape pr oldID newID pr' h
  subst hpr'
  exact ⟨i, hi, hgi, hfirst, rfl, rfl, rfl, rfl⟩

/-- C10: a successful `ReplaceReviewer` substitutes the new id in place
at the first position held by the old id — same length, every other
position unchanged — and consequently neither a successful single
reassignment nor a successful bulk deactivation changes how many
reviewers any stored pull request has. -/
theorem C10_replaceReviewer_in_place :
    (∀ (pr : PullRequest) (oldID newID : String) (pr' : PullRequest),
      pr.ReplaceReviewer oldID newID = .ok pr' →
      ∃ i, i < pr.AssignedReviewers.length ∧
        pr.AssignedReviewers[i]? = some oldID ∧
        (∀ k, k < i → pr.AssignedReviewers[k]? ≠ some oldID) ∧
        pr'.AssignedReviewers.length = pr.AssignedReviewers.length ∧
        pr'.AssignedReviewers[i]? = some newID ∧
        ∀ j, j ≠ i →
          pr'.AssignedReviewers[j]? = pr.AssignedReviewers[j]?) ∧
    (∀ (db : DB) (rand : Nat) (prID0 oldID0 : String)
      (pr' : PullRequest) (newU : String) (db' : DB) (pr : PullRequest),
      ReassignReviewer db rand prID0 oldID0 = (.ok (pr', newU), db') →
      GetPR db (trimSpace prID0) = .ok pr →
      pr'.AssignedReviewers.length = pr.AssignedReviewers.length) ∧
    (∀ (randFn : Nat → Nat) (db : DB) (teamName0 : String)
      (userIDs : List String) (team : Team) (deact : List String)
      (rs : List Reassignment) (db' : DB),
      (db.prs.map PullRequest.PullRequestID).Nodup →
      (∀ pr ∈ db.prs, pr.AssignedReviewers.Nodup) →
      BulkDeactivateTeamMembers randFn db teamName0 userIDs =
        (.ok (team, deact, rs), db') →
      ∀ (i : Nat) (pr pr' : PullRequest), db.prs[i]? = some pr →
        db'.prs[i]? = some pr' →
        pr'.AssignedReviewers.length = pr.AssignedReviewers.length) := by
  refine ⟨?_, ?_, ?_⟩
  · intro pr oldID newID pr' h
    obtain ⟨i, hi, hgi, hfirst, hset, -, -, -⟩ :=
      replaceReviewer_ok_set pr oldID newID pr' h
    refine ⟨i, hi, hgi, hfirst, ?_, ?_, ?_⟩
    · rw [hset, List.length_set]
    · rw [hset]
      exact List.getElem?_set_eq_of_lt newID hi
    · intro j hj
      rw [hset]
      exact List.getElem?_set_ne (fun he => hj he.symm)
  · intro db rand prID0 oldID0 pr' newU db' pr h hget
    obtain ⟨-, -, pr₁, oldUser, hget₁, -, -, -, -, hrr, -⟩ :=
      reassignReviewer_ok_shape db rand prID0 oldID0 pr' newU db' h
    have hpr₁ : pr₁ = pr := by
      rw [hget₁] at hget
      injection hget
    subst hpr₁
    obtain ⟨i, -, -, -, hset, -, -, -⟩ :=
      replaceReviewer_ok_set pr₁ _ newU pr' hrr
    rw [hset, List.length_set]
  · intro randFn db teamName0 userIDs team deact rs db' hids hrevs h
    intro i pr pr' hi hi'
    obtain ⟨-, -, hcount, -⟩ :=
      bulk_ok_txinv randFn db teamName0 userIDs team deact rs db' hids hrevs h
    exact (hcount i pr pr' hi hi').1

/-- C6: `ReassignReviewer` fails with `PRMerged` on a merged pull
request and with `NotAssigned` when the old reviewer is not assigned;
on success the old reviewer is gone from the returned pull request, the
new reviewer is on it, and the new reviewer is an active member of the
old reviewer's team distinct from the author and from every reviewer
assigned before the call. -/
theorem C6_reassignReviewer_spec :
    (∀ (db : DB) (rand : Nat) (prID0 oldID0 : String) (pr : PullRequest),
      trimSpace prID0 ≠ "" → trimSpace oldID0 ≠ "" →
      GetPR db (trimSpace prID0) = .ok pr → pr.IsMerged = true →
      ReassignReviewer db rand prID0 oldID0 = (.error .ErrPRMerged, db)) ∧
    (∀ (db : DB) (rand : Nat) (prID0 oldID0 : String) (pr : PullRequest),
      trimSpace prID0 ≠ "" → trimSpace oldID0 ≠ "" →
      GetPR db (trimSpace prID0) = .ok pr → pr.IsMerged = false →
      pr.IsReviewerAssigned (trimSpace oldID0) = false →
      ReassignReviewer db rand prID0 oldID0 = (.error .ErrNotAssigned, db)) ∧
    (∀ (db : DB) (rand : Nat) (prID0 oldID0 : String) (pr' : PullRequest)
      (newU : String) (db' : DB) (pr : PullRequest) (oldUser : User),
      ReassignReviewer db rand prID0 oldID0 = (.ok (pr', newU), db') →
      GetPR db (trimSpace prID0) = .ok pr →
      GetUser db (trimSpace oldID0) = .ok oldUser →
      pr.AssignedReviewers.Nodup →
      trimSpace oldID0 ∉ pr'.AssignedReviewers ∧
      newU ∈ pr'.AssignedReviewers ∧
      newU ≠ pr.AuthorID ∧ newU ∉ pr.AssignedReviewers ∧
      ∃ u, u ∈ db.users ∧ u.TeamName = oldUser.TeamName ∧
        u.IsActive = true ∧ u.UserID = newU) := by
  refine ⟨?_, ?_, ?_⟩
  · intro db rand prID0 oldID0 pr h1 h2 hget hm
    unfold ReassignReviewer
    rw [if_neg (by push_neg; exact ⟨h1, h2⟩), hget]
    dsimp only
    rw [if_pos (by simp [PullRequest.CanReassign, hm])]
  · intro db rand prID0 oldID0 pr h1 h2 hget hm hna
    unfold ReassignReviewer
    rw [if_neg (by push_neg; exact ⟨h1, h2⟩), hget]
    dsimp only
    rw [if_neg (by simp [PullRequest.CanReassign, hm]),
      if_pos (by simp [hna])]
  · intro db rand prID0 oldID0 pr' newU db' pr oldUser h hget hgu hnd
    obtain ⟨-, -, pr₁, oldUser₁, hget₁, -, hassigned, hgu₁, hsel, hrr, -⟩ :=
      reassignReviewer_ok_shape db rand prID0 oldID0 pr' newU db' h
    have hpr₁ : pr₁ = pr := by rw [hget₁] at hget; injection hget
    subst hpr₁
    have hou : oldUser₁ = oldUser := by rw [hgu₁] at hgu; injection hgu
    -- what the selection guarantees
    obtain ⟨u, hu, huid⟩ := selectReplacementReviewer_ok _ _ _ _ hsel
    obtain ⟨humem, huact, hunotex⟩ := (mem_replacement_candidates_iff _ _ u).mp hu
    have hnewnotex : newU ∉ pr₁.AssignedReviewers ++ [pr₁.AuthorID] :=
      huid ▸ hunotex
    have hnewnotrev : newU ∉ pr₁.AssignedReviewers :=
      fun hx => hnewnotex (List.mem_append_left _ hx)
    have hnewnotauthor : newU ≠ pr₁.AuthorID := by
      intro hx
      exact hnewnotex (List.mem_append_right _ (by simp [hx]))
    -- membership data for the replacement user
    have humem' : u ∈ db.users ∧ u.TeamName = oldUser.TeamName := by
      have h2 : u ∈ db.users ∧ u.TeamName = oldUser₁.TeamName := by
        simpa [GetTeamMembers] using humem
      exact ⟨h2.1, hou ▸ h2.2⟩
    -- the substitution in place
    obtain ⟨i, hi, hgi, -, hset, -, -, -⟩ :=
      replaceReviewer_ok_set pr₁ _ newU pr' hrr
    have holdmem : trimSpace oldID0 ∈ pr₁.AssignedReviewers := by
      have := hassigned
      unfold PullRequest.IsReviewerAssigned at this
      simpa using this
    have holdnew : trimSpace oldID0 ≠ newU := by
      intro hx
      exact hnewnotrev (hx ▸ holdmem)
    refine ⟨?_, ?_, hnewnotauthor, hnewnotrev, u, humem'.1, humem'.2, huact, huid⟩
    · -- the old reviewer is no longer assigned
      intro hmem
      rw [hset] at hmem
      obtain ⟨j, hj⟩ := List.mem_iff_getElem?.mp hmem
      by_cases hij : j = i
      · subst hij
        rw [List.getElem?_set_eq_of_lt _ hi] at hj
        injection hj with hj
        exact holdnew hj.symm
      · rw [List.getElem?_set_ne (fun he => hij he.symm)] at hj
        have hjlt : j < pr₁.AssignedReviewers.length :=
          (List.getElem?_eq_some.mp hj).1
        exact hij (List.getElem?_inj hjlt hnd (hj.trans hgi.symm))
    · -- the new reviewer is assigned
      rw [hset]
      exact List.getElem?_mem (List.getElem?_set_eq_of_lt _ hi)

/-! ## Lemmas for the validation claim -/

lemma normalizeFold_blank :
    ∀ (l : List String) (acc : List String),
      (∃ raw ∈ l, trimSpace raw = "") →
      l.foldlM normalizeStep acc = .error .ErrInvalidArgument := by
  intro l
  induction l with
  | nil => rintro acc ⟨raw, hraw, -⟩; cases hraw
  | cons a l ih =>
    rintro acc ⟨raw, hraw, hblank⟩
    rw [List.foldlM_cons]
    by_cases ha : trimSpace a = ""
    · rw [show normalizeStep acc a = .error .ErrInvalidArgument by
        unfold normalizeStep; rw [if_pos ha]]
      simp [Bind.bind, Except.bind]
    · have hraw' : raw ∈ l := by
        rcases List.mem_cons.mp hraw with h | h
        · exact absurd (h ▸ hblank) ha
        · exact h
      cases hs : normalizeStep acc a with
      | error e =>
        unfold normalizeStep at hs
        rw [if_neg ha] at hs
        by_cases hc : acc.contains (trimSpace a)
        · rw [if_pos hc] at hs; cases hs
        · rw [if_neg hc] at hs; cases hs
      | ok acc₁ =>
        have := ih acc₁ ⟨raw, hraw', hblank⟩
        simp [Bind.bind, Except.bind, this]

lemma normalizeFold_ok :
    ∀ (l : List String) (acc : List String),
      (∀ raw ∈ l, trimSpace raw ≠ "") →
      ∃ res, l.foldlM normalizeStep acc = .ok res := by
  intro l
  induction l with
  | nil => exact fun acc _ => ⟨acc, rfl⟩
  | cons a l ih =>
    intro acc hnb
    rw [List.foldlM_cons]
    have ha : trimSpace a ≠ "" := hnb a (by simp)
    cases hs : normalizeStep acc a with
    | error e =>
      unfold normalizeStep at hs
      rw [if_neg ha] at hs
      by_cases hc : acc.contains (trimSpace a)
      · rw [if_pos hc] at hs; cases hs
      · rw [if_neg hc] at hs; cases hs
    | ok acc₁ =>
      obtain ⟨res, hres⟩ := ih acc₁ (fun raw hraw => hnb raw (by simp [hraw]))
      exact ⟨res, by simp [Bind.bind, Except.bind, hres]⟩

lemma normalizeStep_ok_src (acc : List String) (raw : String)
    (acc' : List String) (h : normalizeStep acc raw = .ok acc') :
    ∀ x ∈ acc', x ∈ acc ∨ x = trimSpace raw := by
  unfold normalizeStep at h
  by_cases h1 : trimSpace raw = ""
  · rw [if_pos h1] at h; cases h
  · rw [if_neg h1] at h
    by_cases h2 : acc.contains (trimSpace raw)
    · rw [if_pos h2] at h
      injection h with h
      subst h
      exact fun x hx => Or.inl hx
    · rw [if_neg h2] at h
      injection h with h
      subst h
      intro x hx
      rcases List.mem_append.mp hx with hx | hx
      · exact Or.inl hx
      · exact Or.inr (by simpa using hx)

lemma normalizeFold_src :
    ∀ (l : List String) (acc res : List String),
      l.foldlM normalizeStep acc = .ok res →
      ∀ x ∈ res, x ∈ acc ∨ ∃ raw ∈ l, x = trimSpace raw := by
  intro l
  induction l with
  | nil =>
    intro acc res h
    simp only [List.foldlM_nil] at h
    cases h
    exact fun x hx => Or.inl hx
  | cons a l ih =>
    intro acc res h
    rw [List.foldlM_cons] at h
    cases hs : normalizeStep acc a with
    | error e => rw [hs] at h; exact absurd h (by simp [Bind.bind, Except.bind])
    | ok acc₁ =>
      rw [hs] at h
      have h' : l.foldlM normalizeStep acc₁ = .ok res := by
        simpa [Bind.bind, Except.bind] using h
      intro x hx
      rcases ih acc₁ res h' x hx with hmem | ⟨raw, hraw, hx'⟩
      · rcases normalizeStep_ok_src acc a acc₁ hs x hmem with hmem | hx'
        · exact Or.inl hmem
        · exact Or.inr ⟨a, by simp, hx'⟩
      · exact Or.inr ⟨raw, by simp [hraw], hx'⟩

lemma resolveFold_notfound (members : List User) :
    ∀ (l : List String) (acc : List User) (id : String), id ∈ l →
      members.find? (fun m => m.UserID == id) = none →
      l.foldlM (resolveStep members) acc = .error .ErrNotFound := by
  intro l
  induction l with
  | nil => intro acc id h; cases h
  | cons a l ih =>
    intro acc id hid hfind
    rw [List.foldlM_cons]
    cases hs : resolveStep members acc a with
    | error e =>
      unfold resolveStep at hs
      cases hf : members.find? (fun m => m.UserID == a) with
      | none => rw [hf] at hs; injection hs with hs; simp [hs, Bind.bind, Except.bind]
      | some m => rw [hf] at hs; cases hs
    | ok acc₁ =>
      have hida : id ≠ a := by
        intro hx
        subst hx
        unfold resolveStep at hs
        rw [hfind] at hs
        cases hs
      have hidl : id ∈ l := by
        rcases List.mem_cons.mp hid with h | h
        · exact absurd h hida
        · exact h
      simp [Bind.bind, Except.bind, ih acc₁ id hidl hfind]

lemma resolveFold_all_inactive (members : List User) :
    ∀ (l : List String) (acc : List User),
      (∀ id ∈ l, ∃ m, members.find? (fun m => m.UserID == id) = some m ∧
        m.IsActive = false) →
      l.foldlM (resolveStep members) acc = .ok acc := by
  intro l
  induction l with
  | nil => intro acc _; rfl
  | cons a l ih =>
    intro acc hall
    rw [List.foldlM_cons]
    obtain ⟨m, hm, hinactive⟩ := hall a (by simp)
    have hs : resolveStep members acc a = .ok acc := by
      unfold resolveStep
      rw [hm]
      dsimp only
      rw [hinactive]
      simp
    simp [Bind.bind, Except.bind, hs,
      ih acc (fun id hid => hall id (by simp [hid]))]

lemma normalizeIDs_append_dup (userIDs : List String) (raw : String)
    (hmem : raw ∈ userIDs) :
    normalizeIDs (userIDs ++ [raw]) = normalizeIDs userIDs := by
  unfold normalizeIDs
  rw [List.foldlM_append]
  cases hn : userIDs.foldlM normalizeStep [] with
  | error e => simp [Bind.bind, Except.bind]
  | ok res =>
    have htrim : trimSpace raw ∈ res :=
      (normalizeFold_mem userIDs [] res hn).2 raw hmem
    have hblank : trimSpace raw ≠ "" := by
      intro hb
      have := normalizeFold_blank userIDs [] ⟨raw, hmem, hb⟩
      rw [hn] at this
      cases this
    have hstep : normalizeStep res raw = .ok res := by
      unfold normalizeStep
      rw [if_neg hblank, if_pos (by simpa using htrim)]
    simp [Bind.bind, Except.bind, hstep]
    rfl

/-- C7: `BulkDeactivateTeamMembers` validates and normalizes its input
before any mutation: a blank team name, an empty id list, or any blank
id fails with `InvalidArgument`; an empty roster or an unresolvable id
fails with `NotFound`; when every requested id resolves to an
already-inactive member the call succeeds with empty results and the
fetched roster; repeating an already-requested id changes nothing; and
in each failure or no-op case the store is returned unchanged. -/
theorem C7_bulk_validation (randFn : Nat → Nat) (db : DB)
    (teamName0 : String) (userIDs : List String) :
    ((trimSpace teamName0 = "" ∨ userIDs = [] ∨
        ∃ raw ∈ userIDs, trimSpace raw = "") →
      BulkDeactivateTeamMembers randFn db teamName0 userIDs =
        (.error .ErrInvalidArgument, db)) ∧
    (trimSpace teamName0 ≠ "" → userIDs ≠ [] →
      (∀ raw ∈ userIDs, trimSpace raw ≠ "") →
      GetTeamMembers db (trimSpace teamName0) = [] →
      BulkDeactivateTeamMembers randFn db teamName0 userIDs =
        (.error .ErrNotFound, db)) ∧
    (trimSpace teamName0 ≠ "" → userIDs ≠ [] →
      (∀ raw ∈ userIDs, trimSpace raw ≠ "") →
      GetTeamMembers db (trimSpace teamName0) ≠ [] →
      (∃ raw ∈ userIDs, (GetTeamMembers db (trimSpace teamName0)).find?
        (fun m => m.UserID == trimSpace raw) = none) →
      BulkDeactivateTeamMembers randFn db teamName0 userIDs =
        (.error .ErrNotFound, db)) ∧
    (trimSpace teamName0 ≠ "" → userIDs ≠ [] →
      (∀ raw ∈ userIDs, trimSpace raw ≠ "") →
      GetTeamMembers db (trimSpace teamName0) ≠ [] →
      (∀ raw ∈ userIDs, ∃ m,
        (GetTeamMembers db (trimSpace teamName0)).find?
          (fun m => m.UserID == trimSpace raw) = some m ∧
        m.IsActive = false) →
      BulkDeactivateTeamMembers randFn db teamName0 userIDs =
        (.ok (⟨trimSpace teamName0, GetTeamMembers db (trimSpace teamName0)⟩,
          [], []), db)) ∧
    (∀ raw ∈ userIDs,
      BulkDeactivateTeamMembers randFn db teamName0 (userIDs ++ [raw]) =
        BulkDeactivateTeamMembers randFn db teamName0 userIDs) := by
  refine ⟨?_, ?_, ?_, ?_, ?_⟩
  · rintro (h1 | h1 | h1)
    · unfold BulkDeactivateTeamMembers
      rw [if_pos (Or.inl h1)]
    · unfold BulkDeactivateTeamMembers
      rw [if_pos (Or.inr h1)]
    · by_cases h2 : trimSpace teamName0 = "" ∨ userIDs = []
      · unfold BulkDeactivateTeamMembers
        rw [if_pos h2]
      · unfold BulkDeactivateTeamMembers
        rw [if_neg h2]
        have : normalizeIDs userIDs = .error .ErrInvalidArgument :=
          normalizeFold_blank userIDs [] h1
        rw [this]
  · intro h1 h2 _ hmem
    unfold BulkDeactivateTeamMembers
    rw [if_neg (by push_neg; exact ⟨h1, h2⟩)]
    obtain ⟨res, hres⟩ := normalizeFold_ok userIDs [] (by assumption)
    rw [show normalizeIDs userIDs = .ok res from hres]
    dsimp only
    rw [if_pos hmem]
  · intro h1 h2 hnb hmem ⟨raw, hraw, hfind⟩
    unfold BulkDeactivateTeamMembers
    rw [if_neg (by push_neg; exact ⟨h1, h2⟩)]
    obtain ⟨res, hres⟩ := normalizeFold_ok userIDs [] hnb
    rw [show normalizeIDs userIDs = .ok res from hres]
    dsimp only
    rw [if_neg hmem]
    have htr : trimSpace raw ∈ res :=
      (normalizeFold_mem userIDs [] res hres).2 raw hraw
    have : resolveTargets (GetTeamMembers db (trimSpace teamName0)) res =
        .error .ErrNotFound :=
      resolveFold_notfound _ res [] (trimSpace raw) htr hfind
    rw [this]
  · intro h1 h2 hnb hmem hall
    unfold BulkDeactivateTeamMembers
    rw [if_neg (by push_neg; exact ⟨h1, h2⟩)]
    obtain ⟨res, hres⟩ := normalizeFold_ok userIDs [] hnb
    rw [show normalizeIDs userIDs = .ok res from hres]
    dsimp only
    rw [if_neg hmem]
    have hresolve : resolveTargets (GetTeamMembers db (trimSpace teamName0))
        res = .ok [] := by
      apply resolveFold_all_inactive
      intro id hid
      rcases normalizeFold_src userIDs [] res hres id hid with h | ⟨raw, hraw, rfl⟩
      · cases h
      · exact hall raw hraw
    rw [hresolve]
    dsimp only
    rw [if_pos rfl]
  · intro raw hmem
    have hne : ¬(userIDs ++ [raw] = []) := by simp
    have hne' : userIDs ≠ [] := by
      intro h
      rw [h] at hmem
      cases hmem
    by_cases hteam : trimSpace teamName0 = ""
    · unfold BulkDeactivateTeamMembers
      rw [if_pos (Or.inl hteam), if_pos (Or.inl hteam)]
    · unfold BulkDeactivateTeamMembers
      rw [if_neg (by push_neg; exact ⟨hteam, hne⟩),
        if_neg (by push_neg; exact ⟨hteam, hne'⟩),
        normalizeIDs_append_dup userIDs raw hmem]

/-! ## Concrete data for the witnesses -/

def wU1 : User := ⟨"u1", "Alice", "backend", true⟩

def wU2 : User := ⟨"u2", "Bob", "backend", true⟩

def wU3 : User := ⟨"u3", "Charlie", "backend", true⟩

def wU4 : User := ⟨"u4", "David", "backend", true⟩

def wU2x : User := ⟨"u2", "Bob", "backend", false⟩

def wPR1 : PullRequest :=
  ⟨"pr-1", "Add search", "u1", PRStatus.Open, ["u2", "u3"], 0, none⟩

def wPR1' : PullRequest :=
  ⟨"pr-1", "Add search", "u1", PRStatus.Open, ["u3", "u4"], 0, none⟩

def wPR1r : PullRequest :=
  ⟨"pr-1", "Add search", "u1", PRStatus.Open, ["u4", "u3"], 0, none⟩

def wPRM : PullRequest :=
  ⟨"pr-9", "Old", "u1", PRStatus.Merged, ["u2"], 0, some 1⟩

def wTeam : Team := ⟨"backend", [wU1, wU2, wU3, wU4]⟩

def wTeamOut : Team := ⟨"backend", [wU1, wU2x, wU3, wU4]⟩

def dbWok : DB := ⟨[wU1, wU2, wU3, wU4], [wPR1]⟩

def dbWokOut : DB := ⟨[wU1, wU2x, wU3, wU4], [wPR1']⟩

def dbWokR : DB := ⟨[wU1, wU2, wU3, wU4], [wPR1']⟩

def dbW5 : DB := ⟨[wU1, wU2, wU3, wU4], [wPR1, wPRM]⟩

def dbW5' : DB := ⟨[wU1, wU2x, wU3, wU4], [wPR1', wPRM]⟩

def dbWfail : DB :=
  ⟨[wU1, wU2, ⟨"u3", "C", "backend", false⟩, ⟨"u4", "D", "backend", false⟩],
    [⟨"pr-2", "X", "u1", PRStatus.Open, ["u2"], 0, none⟩]⟩

/-! ## Witnesses -/

/-- Witness for C1: deactivating `u2` on a four-member team reassigns
`pr-1` to `u4`, which is not a requested id. -/
theorem C1_bulk_replacements_avoid_targets_witness :
    (⟨"pr-1", "u2", "u4"⟩ : Reassignment).NewUserID ∉ ["u2"].map trimSpace :=
  C1_bulk_replacements_avoid_targets (fun _ => 0) dbWok "backend" ["u2"]
    wTeamOut ["u2"] [⟨"pr-1", "u2", "u4"⟩] dbWokOut (by rfl)
    ⟨"pr-1", "u2", "u4"⟩ (by simp)

/-- Witness for C2: when deactivating the only possible reviewer fails
with `NoCandidate`, the store is returned unchanged. -/
theorem C2_bulkDeactivate_allOrNothing_witness :
    (BulkDeactivateTeamMembers (fun _ => 0) dbWfail "backend" ["u2"]).2 =
      dbWfail :=
  C2_bulkDeactivate_allOrNothing (fun _ => 0) dbWfail "backend" ["u2"]
    DomainError.ErrNoCandidate
    (BulkDeactivateTeamMembers (fun _ => 0) dbWfail "backend" ["u2"]).2
    (by rfl)

/-- Witness for C3: with `u2`, `u3` and the author `u1` excluded, the
selected replacement `u4` is outside the exclusion set and an active
member. -/
theorem C3_selectReplacementReviewer_spec_witness :
    ("u4" : String) ∉ ["u2", "u3", "u1"] ∧
    ∃ u ∈ wTeam.Members, u.IsActive = true ∧ u.UserID = "u4" :=
  (C3_selectReplacementReviewer_spec wTeam ["u2", "u3", "u1"] 0).2 "u4" (by rfl)

/-- Witness for C5: merging the merged `pr-9` again is a no-op, its
reviewer list cannot be touched, and a bulk deactivation of `u2` leaves
it untouched and emits no record for it. -/
theorem C5_merged_is_terminal_witness :
    wPRM.Merge 7 = wPRM ∧
    wPRM.ReplaceReviewer "u2" "u4" = .error .ErrPRMerged ∧
    MergePR dbW5 7 "pr-9" = (.ok wPRM, dbW5) ∧
    (dbW5'.prs[1]? = some wPRM ∧
      ∀ r ∈ [(⟨"pr-1", "u2", "u4"⟩ : Reassignment)],
        r.PullRequestID ≠ wPRM.PullRequestID) :=
  ⟨C5_merged_is_terminal.1 wPRM 7 (by rfl),
   C5_merged_is_terminal.2.1 wPRM "u2" "u4" (by rfl),
   C5_merged_is_terminal.2.2.1 dbW5 7 "pr-9" wPRM (by decide) (by decide)
     (by rfl) (by rfl),
   C5_merged_is_terminal.2.2.2 (fun _ => 0) dbW5 "backend" ["u2"] wTeamOut
     ["u2"] [⟨"pr-1", "u2", "u4"⟩] dbW5' (by decide) (by decide) (by rfl)
     1 wPRM (by rfl) (by rfl)⟩

/-- Witness for C6: reassigning on the merged `pr-9` fails with
`PRMerged`; reassigning a non-reviewer fails with `NotAssigned`; the
successful reassignment of `u2` on `pr-1` yields `u4`, an active
teammate distinct from the author and all prior reviewers. -/
theorem C6_reassignReviewer_spec_witness :
    ReassignReviewer dbW5 0 "pr-9" "u2" = (.error .ErrPRMerged, dbW5) ∧
    ReassignReviewer dbWok 0 "pr-1" "u1" = (.error .ErrNotAssigned, dbWok) ∧
    (trimSpace "u2" ∉ wPR1r.AssignedReviewers ∧
      "u4" ∈ wPR1r.AssignedReviewers ∧
      ("u4" : String) ≠ wPR1.AuthorID ∧ "u4" ∉ wPR1.AssignedReviewers ∧
      ∃ u, u ∈ dbWok.users ∧ u.TeamName = wU2.TeamName ∧
        u.IsActive = true ∧ u.UserID = "u4") :=
  ⟨C6_reassignReviewer_spec.1 dbW5 0 "pr-9" "u2" wPRM (by decide) (by decide)
     (by rfl) (by rfl),
   C6_reassignReviewer_spec.2.1 dbWok 0 "pr-1" "u1" wPR1 (by decide)
     (by decide) (by rfl) (by rfl) (by rfl),
   C6_reassignReviewer_spec.2.2 dbWok 0 "pr-1" "u2" wPR1r "u4" dbWokR wPR1
     wU2 (by rfl) (by rfl) (by rfl) (by decide)⟩

/-- Witness for C7: a blank team name is rejected with the store
unchanged, and repeating a requested id changes nothing. -/
theorem C7_bulk_validation_witness :
    BulkDeactivateTeamMembers (fun _ => 0) dbWok " " ["u2"] =
      (.error .ErrInvalidArgument, dbWok) ∧
    BulkDeactivateTeamMembers (fun _ => 0) dbWok "backend" (["u2"] ++ ["u2"]) =
      BulkDeactivateTeamMembers (fun _ => 0) dbWok "backend" ["u2"] :=
  ⟨(C7_bulk_validation (fun _ => 0) dbWok " " ["u2"]).1 (Or.inl (by rfl)),
   (C7_bulk_validation (fun _ => 0) dbWok "backend" ["u2"]).2.2.2.2 "u2"
     (by simp)⟩

/-- Witness for C8: with author `u1` on a four-member all-active team
and the identity shuffle, exactly two distinct non-author reviewers are
selected. -/
theorem C8_selectReviewers_spec_witness :
    (SelectReviewers wTeam "u1"
        (wTeam.GetActiveMembersExcluding "u1")).length =
      min 2 (wTeam.GetActiveMembersExcluding "u1").length ∧
    (SelectReviewers wTeam "u1"
        (wTeam.GetActiveMembersExcluding "u1")).Nodup ∧
    ∀ id ∈ SelectReviewers wTeam "u1"
        (wTeam.GetActiveMembersExcluding "u1"),
      id ≠ "u1" ∧ ∃ u ∈ wTeam.Members, u.IsActive = true ∧ u.UserID = id :=
  C8_selectReviewers_spec wTeam "u1"
    (wTeam.GetActiveMembersExcluding "u1") (List.Perm.refl _) (by decide)

/-- Witness for C10: replacing `u2` by `u4` on `pr-1` substitutes in
place at position 0; the single reassignment and the bulk deactivation
keep the reviewer count at two. -/
theorem C10_replaceReviewer_in_place_witness :
    (∃ i, i < wPR1.AssignedReviewers.length ∧
      wPR1.AssignedReviewers[i]? = some "u2" ∧
      (∀ k, k < i → wPR1.AssignedReviewers[k]? ≠ some "u2") ∧
      wPR1r.AssignedReviewers.length = wPR1.AssignedReviewers.length ∧
      wPR1r.AssignedReviewers[i]? = some "u4" ∧
      ∀ j, j ≠ i →
        wPR1r.AssignedReviewers[j]? = wPR1.AssignedReviewers[j]?) ∧
    wPR1r.AssignedReviewers.length = wPR1.AssignedReviewers.length ∧
    wPR1'.AssignedReviewers.length = wPR1.AssignedReviewers.length :=
  ⟨C10_replaceReviewer_in_place.1 wPR1 "u2" "u4" wPR1r (by rfl),
   C10_replaceReviewer_in_place.2.1 dbWok 0 "pr-1" "u2" wPR1r "u4" dbWokR
     wPR1 (by rfl) (by rfl),
   C10_replaceReviewer_in_place.2.2 (fun _ => 0) dbWok "backend" ["u2"]
     wTeamOut ["u2"] [⟨"pr-1", "u2", "u4"⟩] dbWokOut (by decide) (by decide)
     (by rfl) 0 wPR1 wPR1' (by rfl) (by rfl)⟩

end PRService
